import Mathlib

/-!
Shallow embedding of the `event-pull` EventPool library.

The repository ships two revisions of the pool:

* `src/unnamed/part_000` — the current revision (`EventPool` with per-pool
  options, capacity enforcement, pending/handling timeouts, and the
  `waitForHandlers` extended-wait mode).  Embedded below as `emitWithOptions`,
  `pull`, `pullTimedOut`, `signalHandled` over `EventPool`.
* `src/lib/pool.js` — the legacy revision (no options, synchronous throws on
  invalid recipients, "fetched" signal instead of "pulled").  Embedded as
  `oldEmit` / `oldPull` over `OldEventPool`.

The `Event` class itself (`src/lib/event.js`) is required by both revisions but
is not among the given sources; the record type and its construction are
modelled from the spec (§3) where so marked.

JavaScript values that the pool treats as opaque (event arguments) are
modelled by `JsVal`; numeric fields that may be `Infinity` (timeouts, the
capacity bound) are modelled by `Dur`.  Timer/promise behaviour of the emit
handle is modelled by the pure settlement function `settle` over the record's
signal history, and the `pull`-side notifier/timeout race by `RaceState`.
-/

/-- Opaque JavaScript value, as passed through event argument lists. -/
inductive JsVal
  | str (s : String)
  | num (n : Int)
  | boolean (b : Bool)
deriving DecidableEq

/-- A JavaScript number that may be `Infinity`: used for `maxPendingEvents`,
`pendingTimeout` and `handlingTimeout`. -/
inductive Dur
  | fin (n : Nat)
  | inf
deriving DecidableEq

/-- The argument passed in recipient-id position: JavaScript callers may pass
`undefined`, a non-string value, or a string (possibly empty, hence falsy). -/
inductive RecipientArg
  | undefinedId
  | ofString (s : String)
  | nonString
deriving DecidableEq

/-- `!recipientId || typeof recipientId !== "string"` is the rejection test in
both revisions; an argument is valid iff it is a non-empty string. -/
def RecipientArg.valid : RecipientArg → Bool
  | .ofString s => !(s == "")
  | _ => false

/-- Effective option set of a pool or of a single event
(`maxPendingEvents`, `pendingTimeout`, `handlingTimeout` from
`DefaultOptions`; `waitForHandlers` is absent there, i.e. falsy). -/
structure Options where
  maxPendingEvents : Dur
  pendingTimeout : Dur
  handlingTimeout : Dur
  waitForHandlers : Bool
deriving DecidableEq

/-- `DefaultOptions` of `src/unnamed/part_000` lines 33–37:
`maxPendingEvents: 100`, `pendingTimeout: Infinity`, `handlingTimeout:
Infinity`; no `waitForHandlers` key, so it reads back falsy. -/
def DefaultOptions : Options :=
  { maxPendingEvents := .fin 100
    pendingTimeout := .inf
    handlingTimeout := .inf
    waitForHandlers := false }

/-- A partial options object as passed to the constructor or to
`emitWithOptions`: absent keys are `none`. -/
structure OptPatch where
  maxPendingEvents : Option Dur := none
  pendingTimeout : Option Dur := none
  handlingTimeout : Option Dur := none
  waitForHandlers : Option Bool := none
deriving DecidableEq

/-- `Object.assign( {}, base, patch )`: keys present in the patch win. -/
def mergeOptions (base : Options) (p : OptPatch) : Options :=
  { maxPendingEvents := p.maxPendingEvents.getD base.maxPendingEvents
    pendingTimeout := p.pendingTimeout.getD base.pendingTimeout
    handlingTimeout := p.handlingTimeout.getD base.handlingTimeout
    waitForHandlers := p.waitForHandlers.getD base.waitForHandlers }

/-- Modelled from the spec: the `Event` class (`src/lib/event.js`) is required
by both pool revisions but is not among the given sources.  Per §3 an
EventRecord carries an opaque unique identifier assigned at creation, the
event name, the argument list, and the effective options snapshot captured at
emit time; `pull` (part_000 line 211) additionally reads `event.waitForHandlers`
directly off the record, which per the §3 invariant reflects the record's
effective `waitForHandlers` option. -/
structure Event where
  id : Nat
  name : String
  arguments : List JsVal
  options : Options
  waitForHandlers : Bool
deriving DecidableEq

/-- Modelled from the spec: construction of an EventRecord
(`new Event( eventName, eventArguments, effectiveOptions )`), with the fresh
identifier supplied by the pool-side counter that stands in for the missing
id generator of `src/lib/event.js`. -/
def mkEvent (id : Nat) (nm : String) (args : List JsVal) (o : Options) : Event :=
  { id := id, name := nm, arguments := args, options := o
    waitForHandlers := o.waitForHandlers }

/-- Per-recipient queue stub of the current revision:
`{ active: new Map(), pending: [] }`, plus the `waitingSoNotify` slot
(modelled as a flag: whether a notifier callback is currently installed). -/
structure Stub where
  pending : List Event
  active : List (Nat × Event)
  waitingSoNotify : Bool
deriving DecidableEq

def emptyStub : Stub := { pending := [], active := [], waitingSoNotify := false }

/-- Association-list lookup standing in for property access on the
`queues` object. -/
def lookupQ {α : Type} : List (String × α) → String → Option α
  | [], _ => none
  | (k, s) :: rest, r => if k = r then some s else lookupQ rest r

/-- Association-list update standing in for property assignment on the
`queues` object (existing key overwritten in place, new key appended). -/
def setQ {α : Type} : List (String × α) → String → α → List (String × α)
  | [], r, s => [(r, s)]
  | (k, s0) :: rest, r, s =>
      if k = r then (k, s) :: rest else (k, s0) :: setQ rest r s

/-- Current-revision pool state: the `queues` mapping and the pool-wide
options.  `nextId` is the spec-modelled fresh-identifier counter backing
`mkEvent` (see there). -/
structure EventPool where
  queues : List (String × Stub)
  options : Options
  nextId : Nat
deriving DecidableEq

/-- A freshly constructed pool (no recipients seen yet). -/
def freshPool (o : Options) : EventPool := { queues := [], options := o, nextId := 0 }

/-- `new EventPool( options )`: defaults merged with the constructor patch. -/
def mkPool (p : OptPatch) : EventPool := freshPool (mergeOptions DefaultOptions p)

def stubOf (p : EventPool) (r : String) : Stub := (lookupQ p.queues r).getD emptyStub

def setStub (p : EventPool) (r : String) (s : Stub) : EventPool :=
  { p with queues := setQ p.queues r s }

/-- Lazy stub creation (part_000 lines 86–91 and 186–191):
`if ( !this.queues.hasOwnProperty( recipientId ) ) this.queues[recipientId] =
{ active: new Map(), pending: [] }`. -/
def ensureStub (p : EventPool) (r : String) : EventPool :=
  match lookupQ p.queues r with
  | some _ => p
  | none => setStub p r emptyStub

def pendingOf (p : EventPool) (r : String) : List Event := (stubOf p r).pending
def activeOf (p : EventPool) (r : String) : List (Nat × Event) := (stubOf p r).active
def notifierOf (p : EventPool) (r : String) : Bool := (stubOf p r).waitingSoNotify

/-- `stub.pending.length >= this.options.maxPendingEvents` (part_000 line 95);
never reached when the bound is `Infinity`. -/
def capacityReached (len : Nat) : Dur → Bool
  | .fin m => m ≤ len
  | .inf => false

/-- Error kinds of the error taxonomy: `TypeError( "invalid recipient ID" )`,
`ENOMEM` capacity overflow, `ETIMEDOUT`/`timeout` errors, and an externally
signaled `failed`. -/
inductive ErrKind
  | invalidArgument
  | capacityExceeded
  | timeout
  | failed
deriving DecidableEq

/-- Synchronous outcome of `emitWithOptions`: a returned rejected promise, or
success exposing the created record and whether a suspended `pull`'s notifier
was invoked. -/
inductive EmitOutcome
  | rejectedInvalid
  | rejectedCapacity
  | ok (ev : Event) (notified : Bool)
deriving DecidableEq

/-- Synchronous state effect of `EventPool#emitWithOptions`
(part_000 lines 81–105): validation, lazy stub creation, the capacity check
against the pool-level `this.options.maxPendingEvents`, record construction
with the merged effective options, append to `pending`, and invocation of the
installed notifier (which clears itself, lines 199–202) if present. -/
def emitWithOptions (p : EventPool) (rid : RecipientArg) (nm : String)
    (args : List JsVal) (patch : OptPatch) : EmitOutcome × EventPool :=
  match rid with
  | .ofString s =>
      if s = "" then (.rejectedInvalid, p)
      else
        let p1 := ensureStub p s
        let stub := stubOf p1 s
        if capacityReached stub.pending.length p.options.maxPendingEvents then
          (.rejectedCapacity, p1)
        else
          let eff := mergeOptions p.options patch
          let ev := mkEvent p1.nextId nm args eff
          let notified := stub.waitingSoNotify
          let stub2 := { stub with
            pending := stub.pending ++ [ev]
            waitingSoNotify := false }
          (.ok ev notified, { setStub p1 s stub2 with nextId := p1.nextId + 1 })
  | _ => (.rejectedInvalid, p)

/-- `emit` is `emitWithOptions` with no per-event option patch
(part_000 lines 154–156). -/
def emitDefault (p : EventPool) (rid : RecipientArg) (nm : String)
    (args : List JsVal) : EmitOutcome × EventPool :=
  emitWithOptions p rid nm args {}

/-- `emitAndWait` passes `{ waitForHandlers: true }` (part_000 lines 167–171). -/
def emitAndWait (p : EventPool) (rid : RecipientArg) (nm : String)
    (args : List JsVal) : EmitOutcome × EventPool :=
  emitWithOptions p rid nm args { waitForHandlers := some true }

/-- The body of `pull`'s `then` handler (part_000 lines 206–220): clear the
notifier slot, shift the head of `pending`, insert into `active` keyed by id
when the record's `waitForHandlers` is set (installing the one-shot `handled`
listener, see `signalHandled`), signal `pulled`, and return the record.  The
empty-`pending` case is unreachable under the call-site guard
(`pending.length > 0` or a notifying `emit` just pushed). -/
def pullProceed (p : EventPool) (s : String) : Option Event × EventPool :=
  let stub := stubOf p s
  match stub.pending with
  | [] => (none, setStub p s { stub with waitingSoNotify := false })
  | ev :: rest =>
      let stub2 : Stub :=
        { pending := rest
          active := if ev.waitForHandlers then stub.active ++ [(ev.id, ev)] else stub.active
          waitingSoNotify := false }
      (some ev, setStub p s stub2)

/-- Outcome of the synchronous part of `pull`: an immediately rejected promise
on an invalid recipient; an immediate dequeue when `pending` is non-empty; or
suspension (notifier installed, racing the timeout timer). -/
inductive PullStartOutcome
  | rejectedInvalid
  | immediate (ev : Option Event)
  | suspendedNow
deriving DecidableEq

/-- `EventPool#pull` (part_000 lines 181–226), synchronous part: validation,
lazy stub creation, then either the immediate dequeue path (`pending.length >
0`) or installation of `stub.waitingSoNotify` before racing the timeout. -/
def pull (p : EventPool) (rid : RecipientArg) : PullStartOutcome × EventPool :=
  match rid with
  | .ofString s =>
      if s = "" then (.rejectedInvalid, p)
      else
        let p1 := ensureStub p s
        let stub := stubOf p1 s
        if stub.pending.length > 0 then
          let r := pullProceed p1 s
          (.immediate r.1, r.2)
        else
          (.suspendedNow, setStub p1 s { stub with waitingSoNotify := true })
  | _ => (.rejectedInvalid, p)

/-- The `catch` path of a suspended `pull` whose timeout timer fired first
(part_000 lines 204 and 221–225): the notifier slot is cleared and the call
fails with the `timeout`-flagged error; nothing is dequeued. -/
def pullTimedOut (p : EventPool) (s : String) : ErrKind × EventPool :=
  (.timeout, setStub p s { stubOf p s with waitingSoNotify := false })

/-- Effect of signaling `handled` on a pulled record: the one-shot listener
installed at pull time (part_000 line 214) deletes the record's key from
`active`.  Records pulled without `waitForHandlers` never got a listener and
never entered `active`, for which the removal is a no-op. -/
def signalHandled (p : EventPool) (s : String) (i : Nat) : EventPool :=
  match lookupQ p.queues s with
  | none => p
  | some stub => setStub p s { stub with active := stub.active.filter (fun e => e.1 ≠ i) }

/-! ## Legacy revision (`src/lib/pool.js`) -/

/-- Legacy EventRecord: `new Event( eventName, eventArguments )`, no options.
Modelled from the spec for the missing `src/lib/event.js` exactly as `Event`
above, minus the options snapshot. -/
structure OldEvent where
  id : Nat
  name : String
  arguments : List JsVal
deriving DecidableEq

/-- Legacy per-recipient stub: `{ active: new Map(), pending: [] }` plus the
`waitingSoNotify` slot.  In this revision a tracked record is stored by plain
property assignment `active[event.id] = event` (pool.js line 125), which we
model as keyed storage alongside the Map. -/
structure OldStub where
  pending : List OldEvent
  active : List (Nat × OldEvent)
  waitingSoNotify : Bool
deriving DecidableEq

def emptyOldStub : OldStub := { pending := [], active := [], waitingSoNotify := false }

/-- Legacy pool state: only the `queues` mapping (no options), plus the
spec-modelled fresh-identifier counter. -/
structure OldEventPool where
  queues : List (String × OldStub)
  nextId : Nat
deriving DecidableEq

def freshOldPool : OldEventPool := { queues := [], nextId := 0 }

/-- Outcome of calling a JavaScript function that may throw synchronously:
either a thrown error or a returned value. -/
inductive JsCall (α : Type)
  | thrown (e : ErrKind)
  | returned (a : α)
deriving DecidableEq

def JsCall.isThrown {α : Type} : JsCall α → Bool
  | .thrown _ => true
  | .returned _ => false

def oldStubOf (p : OldEventPool) (r : String) : OldStub :=
  (lookupQ p.queues r).getD emptyOldStub

def setOldStub (p : OldEventPool) (r : String) (s : OldStub) : OldEventPool :=
  { p with queues := setQ p.queues r s }

def ensureOldStub (p : OldEventPool) (r : String) : OldEventPool :=
  match lookupQ p.queues r with
  | some _ => p
  | none => setOldStub p r emptyOldStub

def oldPendingOf (p : OldEventPool) (r : String) : List OldEvent := (oldStubOf p r).pending

/-- Legacy `EventPool#emit` (pool.js lines 62–88): THROWS a `TypeError`
synchronously on an invalid recipient id; otherwise lazily creates the stub,
appends the new record (no capacity check exists in this revision), and
invokes the installed notifier — which in this revision does NOT clear the
slot (`stub.waitingSoNotify = resolve`, line 116; cleared only later in
`pull`'s own handlers). -/
def oldEmit (p : OldEventPool) (rid : RecipientArg) (nm : String)
    (args : List JsVal) : JsCall (OldEvent × Bool) × OldEventPool :=
  match rid with
  | .ofString s =>
      if s = "" then (.thrown .invalidArgument, p)
      else
        let p1 := ensureOldStub p s
        let stub := oldStubOf p1 s
        let ev : OldEvent := { id := p1.nextId, name := nm, arguments := args }
        let stub2 := { stub with pending := stub.pending ++ [ev] }
        (.returned (ev, stub.waitingSoNotify),
          { setOldStub p1 s stub2 with nextId := p1.nextId + 1 })
  | _ => (.thrown .invalidArgument, p)

/-- Legacy `pull`'s `then` handler (pool.js lines 119–131): clear the notifier,
shift the head, optionally track it in `active` (only when the caller passed
`waitForResolution`), signal `fetched`, return the record. -/
def oldPullProceed (p : OldEventPool) (s : String) (waitForResolution : Bool) :
    Option OldEvent × OldEventPool :=
  let stub := oldStubOf p s
  match stub.pending with
  | [] => (none, setOldStub p s { stub with waitingSoNotify := false })
  | ev :: rest =>
      let stub2 : OldStub :=
        { pending := rest
          active := if waitForResolution then stub.active ++ [(ev.id, ev)] else stub.active
          waitingSoNotify := false }
      (some ev, setOldStub p s stub2)

/-- Outcome of the synchronous part of the legacy `pull` (within a successful
call): immediate dequeue or suspension. -/
inductive OldPullStartOutcome
  | immediate (ev : Option OldEvent)
  | suspendedNow
deriving DecidableEq

/-- Legacy `EventPool#pull` (pool.js lines 99–137), synchronous part: THROWS a
`TypeError` synchronously on an invalid recipient id; otherwise proceeds
immediately when `pending` is non-empty or installs the notifier and races the
timeout. -/
def oldPull (p : OldEventPool) (rid : RecipientArg) (waitForResolution : Bool) :
    JsCall OldPullStartOutcome × OldEventPool :=
  match rid with
  | .ofString s =>
      if s = "" then (.thrown .invalidArgument, p)
      else
        let p1 := ensureOldStub p s
        let stub := oldStubOf p1 s
        if stub.pending.length > 0 then
          let r := oldPullProceed p1 s waitForResolution
          (.returned (.immediate r.1), r.2)
        else
          (.returned .suspendedNow, setOldStub p1 s { stub with waitingSoNotify := true })
  | _ => (.thrown .invalidArgument, p)

/-! ## Basic frame lemmas for the queues mapping -/

theorem lookupQ_setQ_self {α : Type} (qs : List (String × α)) (r : String) (s : α) :
    lookupQ (setQ qs r s) r = some s := by
  induction qs with
  | nil => simp [setQ, lookupQ]
  | cons hd tl ih =>
      obtain ⟨k, v⟩ := hd
      by_cases hk : k = r
      · simp [setQ, lookupQ, hk]
      · simp [setQ, lookupQ, hk, ih]

theorem lookupQ_setQ_ne {α : Type} (qs : List (String × α)) (r r' : String) (s : α)
    (h : r' ≠ r) : lookupQ (setQ qs r s) r' = lookupQ qs r' := by
  have hrr : ¬r = r' := fun hh => h hh.symm
  induction qs with
  | nil => simp [setQ, lookupQ, hrr]
  | cons hd tl ih =>
      obtain ⟨k, v⟩ := hd
      by_cases hk : k = r
      · subst hk
        simp [setQ, lookupQ, hrr]
      · simp [setQ, lookupQ, hk, ih]

theorem stubOf_setStub_self (p : EventPool) (r : String) (s : Stub) :
    stubOf (setStub p r s) r = s := by
  simp [stubOf, setStub, lookupQ_setQ_self]

theorem stubOf_setStub_ne (p : EventPool) (r r' : String) (s : Stub) (h : r' ≠ r) :
    stubOf (setStub p r s) r' = stubOf p r' := by
  simp [stubOf, setStub, lookupQ_setQ_ne _ _ _ _ h]

theorem stubOf_ensureStub (p : EventPool) (r r' : String) :
    stubOf (ensureStub p r) r' = stubOf p r' := by
  unfold ensureStub
  cases h : lookupQ p.queues r with
  | some s => rfl
  | none =>
      by_cases hr : r' = r
      · subst hr
        simp [stubOf, setStub, lookupQ_setQ_self, h]
      · exact stubOf_setStub_ne p r r' emptyStub hr

theorem ensureStub_nextId (p : EventPool) (r : String) :
    (ensureStub p r).nextId = p.nextId := by
  unfold ensureStub
  cases lookupQ p.queues r <;> rfl

theorem ensureStub_options (p : EventPool) (r : String) :
    (ensureStub p r).options = p.options := by
  unfold ensureStub
  cases lookupQ p.queues r <;> rfl

theorem pendingOf_ensureStub (p : EventPool) (r r' : String) :
    pendingOf (ensureStub p r) r' = pendingOf p r' := by
  simp [pendingOf, stubOf_ensureStub]

/-! ## C2 — capacity enforcement -/

/-- C2 counterexample: the claim predicts that an emit whose EFFECTIVE options
give `maxPendingEvents = 0` fails with `CapacityExceeded` whenever the queue
holds at least 0 records; but the code checks the queue length against the
pool-level `this.options.maxPendingEvents` (default 100), so this emit
succeeds and enqueues: the claim is false as stated. -/
theorem C2_counterexample :
    (mergeOptions (freshPool DefaultOptions).options
        { maxPendingEvents := some (.fin 0) }).maxPendingEvents = .fin 0 ∧
    capacityReached (pendingOf (freshPool DefaultOptions) "r").length (.fin 0) = true ∧
    (emitWithOptions (freshPool DefaultOptions) (.ofString "r") "evt" []
        { maxPendingEvents := some (.fin 0) }).1 ≠ .rejectedCapacity ∧
    (pendingOf (emitWithOptions (freshPool DefaultOptions) (.ofString "r") "evt" []
        { maxPendingEvents := some (.fin 0) }).2 "r").length = 1 := by
  decide

/-- C2 (amended): for every emit call targeting a recipient whose pending
queue already holds at least the POOL-LEVEL `options.maxPendingEvents`
records (per-call overrides of `maxPendingEvents` are ignored by the check),
the call fails with the `CapacityExceeded` condition, no record is created
(the id counter is untouched) or enqueued, and every recipient's pending
queue is unchanged. -/
theorem C2_capacity_rejection (p : EventPool) (s nm : String) (args : List JsVal)
    (patch : OptPatch) (hs : s ≠ "")
    (hcap : capacityReached (pendingOf p s).length p.options.maxPendingEvents = true) :
    (emitWithOptions p (.ofString s) nm args patch).1 = .rejectedCapacity ∧
    (∀ r, pendingOf (emitWithOptions p (.ofString s) nm args patch).2 r = pendingOf p r) ∧
    (emitWithOptions p (.ofString s) nm args patch).2.nextId = p.nextId := by
  have hstub : (stubOf (ensureStub p s) s).pending = pendingOf p s := by
    simp [pendingOf, stubOf_ensureStub]
  simp only [emitWithOptions, hs, if_false, hstub]
  rw [hcap]
  refine ⟨rfl, ?_, ?_⟩
  · intro r
    simp [pendingOf_ensureStub]
  · simp [ensureStub_nextId]

/-- Witness for `C2_capacity_rejection` at a concrete pool whose pool-level
`maxPendingEvents` is 0. -/
theorem C2_capacity_rejection_witness :
    (emitWithOptions (freshPool { DefaultOptions with maxPendingEvents := .fin 0 })
        (.ofString "r") "evt" [] {}).1 = .rejectedCapacity ∧
    (emitWithOptions (freshPool { DefaultOptions with maxPendingEvents := .fin 0 })
        (.ofString "r") "evt" [] {}).2.nextId = 0 := by
  have h := C2_capacity_rejection
      (freshPool { DefaultOptions with maxPendingEvents := .fin 0 })
      "r" "evt" [] {} (by decide) (by decide)
  exact ⟨h.1, h.2.2⟩

/-! ## C3 — invalid recipient handling -/

/-- C3 counterexample: the claim says neither `emit` nor `pull` ever throws
synchronously on a missing/non-string recipient id; but the legacy revision
(`src/lib/pool.js`) throws a `TypeError` synchronously from both entry
points. -/
theorem C3_counterexample :
    (oldEmit freshOldPool (.ofString "") "evt" []).1.isThrown = true ∧
    (oldPull freshOldPool .undefinedId false).1.isThrown = true := by
  decide

/-- C3 (amended): for every missing or non-string (or empty-string, hence
falsy) recipient id, the current revision's `emitWithOptions` and `pull`
surface the `InvalidArgument` condition as an immediately rejected result and
leave the pool completely unchanged, while the legacy revision's `emit` and
`pull` throw the `TypeError` synchronously (also leaving the pool
unchanged). -/
theorem C3_invalid_recipient (p : EventPool) (q : OldEventPool) (rid : RecipientArg)
    (nm : String) (args : List JsVal) (patch : OptPatch) (w : Bool)
    (hv : rid.valid = false) :
    emitWithOptions p rid nm args patch = (.rejectedInvalid, p) ∧
    pull p rid = (.rejectedInvalid, p) ∧
    (oldEmit q rid nm args).1.isThrown = true ∧ (oldEmit q rid nm args).2 = q ∧
    (oldPull q rid w).1.isThrown = true ∧ (oldPull q rid w).2 = q := by
  cases rid with
  | ofString s =>
      have hs : s = "" := by
        simpa [RecipientArg.valid] using hv
      subst hs
      simp [emitWithOptions, pull, oldEmit, oldPull, JsCall.isThrown]
  | undefinedId => simp [emitWithOptions, pull, oldEmit, oldPull, JsCall.isThrown]
  | nonString => simp [emitWithOptions, pull, oldEmit, oldPull, JsCall.isThrown]

/-- Witness for `C3_invalid_recipient` at a concrete undefined recipient. -/
theorem C3_invalid_recipient_witness :
    emitWithOptions (freshPool DefaultOptions) .undefinedId "x" [] {} =
      (.rejectedInvalid, freshPool DefaultOptions) ∧
    (oldEmit freshOldPool .undefinedId "x" []).1.isThrown = true := by
  have h := C3_invalid_recipient (freshPool DefaultOptions) freshOldPool .undefinedId
      "x" [] {} false (by decide)
  exact ⟨h.1, h.2.2.1⟩

/-! ## Normal forms of successful emit and immediate pull -/

theorem emitWithOptions_ok (p : EventPool) (s nm : String) (args : List JsVal)
    (patch : OptPatch) (hs : ¬s = "")
    (hcap : capacityReached (stubOf p s).pending.length p.options.maxPendingEvents = false) :
    emitWithOptions p (.ofString s) nm args patch =
      (.ok (mkEvent p.nextId nm args (mergeOptions p.options patch))
        (stubOf p s).waitingSoNotify,
       { setStub (ensureStub p s) s
           { stubOf p s with
             pending := (stubOf p s).pending ++
               [mkEvent p.nextId nm args (mergeOptions p.options patch)]
             waitingSoNotify := false } with
         nextId := p.nextId + 1 }) := by
  simp only [emitWithOptions, hs, if_false, stubOf_ensureStub, ensureStub_nextId, hcap,
    Bool.false_eq_true]

theorem pull_immediate (p : EventPool) (s : String) (ev : Event) (rest : List Event)
    (hs : ¬s = "") (hp : pendingOf p s = ev :: rest) :
    pull p (.ofString s) =
      (.immediate (some ev),
       setStub (ensureStub p s) s
         { pending := rest
           active := if ev.waitForHandlers then (stubOf p s).active ++ [(ev.id, ev)]
             else (stubOf p s).active
           waitingSoNotify := false }) := by
  have hp' : (stubOf p s).pending = ev :: rest := hp
  simp only [pull, pullProceed, hs, if_false, stubOf_ensureStub, hp', List.length_cons,
    Nat.succ_sub_one, if_true]
  simp

/-! ## C1 — FIFO delivery order per recipient -/

/-- Sequential successful emits of a list of (name, arguments) payloads to one
recipient, with default per-event options; stops at the first failure. -/
def emitList (p : EventPool) (r : String) :
    List (String × List JsVal) → List Event × EventPool
  | [] => ([], p)
  | (nm, args) :: rest =>
      match emitDefault p (.ofString r) nm args with
      | (.ok ev _, p1) =>
          let t := emitList p1 r rest
          (ev :: t.1, t.2)
      | (_, p1) => ([], p1)

/-- `n` sequential pulls for one recipient; records the dequeued record of each
immediate pull (`none` for a non-immediate outcome). -/
def pullList (p : EventPool) (r : String) : Nat → List (Option Event) × EventPool
  | 0 => ([], p)
  | n + 1 =>
      let h := pull p (.ofString r)
      let o := match h.1 with
        | .immediate e => e
        | _ => none
      let t := pullList h.2 r n
      (o :: t.1, t.2)

theorem emitList_spec (r : String) (hr : ¬r = "") :
    ∀ (pl : List (String × List JsVal)) (p : EventPool),
      (∀ k, k < pl.length →
        capacityReached ((pendingOf p r).length + k) p.options.maxPendingEvents = false) →
      (emitList p r pl).1.length = pl.length ∧
      pendingOf (emitList p r pl).2 r = pendingOf p r ++ (emitList p r pl).1 ∧
      (emitList p r pl).2.options = p.options := by
  intro pl
  induction pl with
  | nil => intro p _; simp [emitList]
  | cons hd tl ih =>
      intro p hcap
      obtain ⟨nm, args⟩ := hd
      have hcap0 : capacityReached (stubOf p r).pending.length p.options.maxPendingEvents
          = false := by
        have := hcap 0 (by simp)
        simpa [pendingOf] using this
      have hemit := emitWithOptions_ok p r nm args {} hr hcap0
      set ev := mkEvent p.nextId nm args (mergeOptions p.options {}) with hev
      set p1 : EventPool :=
        { setStub (ensureStub p r) r
            { stubOf p r with
              pending := (stubOf p r).pending ++ [ev]
              waitingSoNotify := false } with
          nextId := p.nextId + 1 } with hp1
      have hpend1 : pendingOf p1 r = pendingOf p r ++ [ev] := by
        simp [hp1, pendingOf, stubOf, setStub, lookupQ_setQ_self]
      have hopt1 : p1.options = p.options := by
        simp [hp1, setStub, ensureStub_options]
      have hcap1 : ∀ k, k < tl.length →
          capacityReached ((pendingOf p1 r).length + k) p1.options.maxPendingEvents
            = false := by
        intro k hk
        rw [hpend1, hopt1]
        have := hcap (k + 1) (by simpa using Nat.succ_lt_succ hk)
        simpa [Nat.add_assoc, Nat.add_comm 1 k] using this
      have iht := ih p1 hcap1
      have hstep : emitList p r ((nm, args) :: tl) =
          (ev :: (emitList p1 r tl).1, (emitList p1 r tl).2) := by
        simp only [emitList, emitDefault, hemit]
      rw [hstep]
      refine ⟨by simp [iht.1], ?_, by rw [iht.2.2, hopt1]⟩
      simp only [iht.2.1, hpend1]
      simp

theorem pullList_spec (r : String) (hr : ¬r = "") :
    ∀ (evs : List Event) (p : EventPool), pendingOf p r = evs →
      (pullList p r evs.length).1 = evs.map some ∧
      pendingOf (pullList p r evs.length).2 r = [] := by
  intro evs
  induction evs with
  | nil => intro p hp; simp [pullList, hp]
  | cons ev rest ih =>
      intro p hp
      have hpull := pull_immediate p r ev rest hr hp
      set p1 := setStub (ensureStub p r) r
        { pending := rest
          active := if ev.waitForHandlers then (stubOf p r).active ++ [(ev.id, ev)]
            else (stubOf p r).active
          waitingSoNotify := false } with hp1def
      have hpend1 : pendingOf p1 r = rest := by
        simp [hp1def, pendingOf, stubOf, setStub, lookupQ_setQ_self]
      have iht := ih p1 hpend1
      have hstep : pullList p r (rest.length + 1) =
          (some ev :: (pullList p1 r rest.length).1, (pullList p1 r rest.length).2) := by
        simp only [pullList, hpull]
      simp only [List.length_cons, hstep, List.map_cons]
      exact ⟨by rw [iht.1], iht.2⟩

/-- C1: starting from a pool with no pending records for recipient `r`, a
sequence of `n` successful `emit( r, … )` calls (default per-event options)
followed by `n` `pull( r, … )` calls delivers the records in emission order:
every emit succeeds and appends its freshly created record to the tail of
`r`'s pending queue (conjunct on `emitWithOptions`), after the emits the queue
holds exactly the created records in order, the i-th pull removes the head and
returns the record created by the i-th emit, and the queue is empty
afterwards. -/
theorem C1_fifo_per_recipient (opts : Options) (r : String)
    (pl : List (String × List JsVal)) (hr : ¬r = "")
    (hcap : ∀ k, k < pl.length → capacityReached k opts.maxPendingEvents = false) :
    ((emitList (freshPool opts) r pl).1.length = pl.length ∧
     pendingOf (emitList (freshPool opts) r pl).2 r = (emitList (freshPool opts) r pl).1 ∧
     (pullList (emitList (freshPool opts) r pl).2 r pl.length).1 =
       (emitList (freshPool opts) r pl).1.map some ∧
     pendingOf (pullList (emitList (freshPool opts) r pl).2 r pl.length).2 r = []) ∧
    (∀ (p : EventPool) (nm : String) (args : List JsVal) (patch : OptPatch),
      capacityReached (pendingOf p r).length p.options.maxPendingEvents = false →
      pendingOf (emitWithOptions p (.ofString r) nm args patch).2 r =
        pendingOf p r ++ [mkEvent p.nextId nm args (mergeOptions p.options patch)]) ∧
    (∀ (p : EventPool) (ev : Event) (rest : List Event),
      pendingOf p r = ev :: rest →
      (pull p (.ofString r)).1 = .immediate (some ev) ∧
      pendingOf (pull p (.ofString r)).2 r = rest) := by
  have hfresh : pendingOf (freshPool opts) r = [] := by
    simp [pendingOf, stubOf, freshPool, lookupQ, emptyStub]
  have hcap' : ∀ k, k < pl.length →
      capacityReached ((pendingOf (freshPool opts) r).length + k)
        (freshPool opts).options.maxPendingEvents = false := by
    intro k hk
    rw [hfresh]
    simpa [freshPool] using hcap k hk
  have he := emitList_spec r hr pl (freshPool opts) hcap'
  have hqueue : pendingOf (emitList (freshPool opts) r pl).2 r =
      (emitList (freshPool opts) r pl).1 := by
    rw [he.2.1, hfresh]
    simp
  have hlen := he.1
  have hpulls := pullList_spec r hr (emitList (freshPool opts) r pl).1
      (emitList (freshPool opts) r pl).2 hqueue
  refine ⟨⟨hlen, hqueue, ?_, ?_⟩, ?_, ?_⟩
  · rw [← hlen]; exact hpulls.1
  · rw [← hlen]; exact hpulls.2
  · intro p nm args patch hc
    have hc' : capacityReached (stubOf p r).pending.length p.options.maxPendingEvents
        = false := hc
    rw [emitWithOptions_ok p r nm args patch hr hc']
    simp [pendingOf, stubOf, setStub, lookupQ_setQ_self]
  · intro p ev rest hp
    rw [pull_immediate p r ev rest hr hp]
    constructor
    · rfl
    · simp [pendingOf, stubOf, setStub, lookupQ_setQ_self]

/-- Witness for `C1_fifo_per_recipient`: two emits named "first" and "second"
to recipient "shared" followed by two pulls deliver them in order. -/
theorem C1_fifo_per_recipient_witness :
    (pullList (emitList (freshPool DefaultOptions) "shared"
        [("first", []), ("second", [])]).2 "shared" 2).1 =
      (emitList (freshPool DefaultOptions) "shared"
        [("first", []), ("second", [])]).1.map some ∧
    (emitList (freshPool DefaultOptions) "shared"
        [("first", []), ("second", [])]).1.length = 2 := by
  have h := C1_fifo_per_recipient DefaultOptions "shared" [("first", []), ("second", [])]
      (by decide) (by decide)
  exact ⟨h.1.2.2.1, h.1.1⟩

/-! ## Settlement of the emit handle (part_000 lines 107–140)

The promise returned by `emitWithOptions` settles according to the listeners
installed on the record: `once( resolvingEvent, resolve )` where the resolving
signal is `handled` when `waitForHandlers` is set and `pulled` otherwise,
`once( "failed", reject )`, a pending-timeout timer armed at creation iff
`0 < pendingTimeout < Infinity` and cancelled by a `pulled` listener, and —
only in wait-for-handled mode with `0 < handlingTimeout < Infinity` — a
handling-timeout timer armed when `pulled` is signaled.  We model the signal
history by the (absolute, creation-relative) times of the `pulled`, `handled`
and `failed` signals, and settlement as the earliest triggered cause; at equal
times a processed signal beats a timer callback and earlier-installed
listeners win. -/

inductive TimerKind
  | pendingT
  | handlingT
deriving DecidableEq

inductive Settle
  | stillPending
  | resolvedAt (t : Nat)
  | failedAt (t : Nat)
  | timeoutAt (t : Nat) (k : TimerKind)
deriving DecidableEq

/-- Times (measured from record creation) at which the record's lifecycle
signals occur, if ever.  `once` listeners see only the first occurrence. -/
structure SignalTimes where
  pulled : Option Nat
  handled : Option Nat
  failed : Option Nat
deriving DecidableEq

/-- `const resolvingEvent = event.options.waitForHandlers ? "handled" :
"pulled"` (line 107): the time at which the resolving signal occurs. -/
def resolvingSignalTime (w : Bool) (h : SignalTimes) : Option Nat :=
  if w then h.handled else h.pulled

/-- The pending-timeout timer (lines 121–125): armed iff
`pendingTimeout > 0 && pendingTimeout < Infinity`; cancelled by the `pulled`
listener, so it fires (at `pendingTimeout`) only when no `pulled` signal
occurs at or before that time. -/
def pendingFireTime (pt : Dur) (h : SignalTimes) : Option Nat :=
  match pt with
  | .inf => none
  | .fin d =>
      if 0 < d then
        match h.pulled with
        | none => some d
        | some tp => if d < tp then some d else none
      else none

/-- The handling-timeout timer (lines 127–131): armed only in wait-for-handled
mode with `handlingTimeout > 0 && handlingTimeout < Infinity`, starting when
`pulled` is signaled; it is cancelled only after the promise settles (lines
134–140), so its firing time is unconditional once armed and firing into an
already-settled promise is a no-op (captured by earliest-cause settlement). -/
def handlingFireTime (w : Bool) (ht : Dur) (h : SignalTimes) : Option Nat :=
  if w then
    match ht, h.pulled with
    | .fin e, some tp => if 0 < e then some (tp + e) else none
    | _, _ => none
  else none

/-- The settlement causes in listener-installation order: resolve (line 112),
reject on `failed` (line 113), pending-timeout reject, handling-timeout
reject (lines 117–119). -/
def settleCands (w : Bool) (pt ht : Dur) (h : SignalTimes) : List (Nat × Settle) :=
  (match resolvingSignalTime w h with
   | some t => [(t, .resolvedAt t)]
   | none => []) ++
  (match h.failed with
   | some t => [(t, .failedAt t)]
   | none => []) ++
  (match pendingFireTime pt h with
   | some t => [(t, .timeoutAt t .pendingT)]
   | none => []) ++
  (match handlingFireTime w ht h with
   | some t => [(t, .timeoutAt t .handlingT)]
   | none => [])

/-- Earliest cause wins; at equal times the earlier listed cause wins. -/
def earliest : List (Nat × Settle) → Option (Nat × Settle)
  | [] => none
  | c :: rest =>
      match earliest rest with
      | none => some c
      | some b => if b.1 < c.1 then some b else some c

/-- A promise settles exactly once, on the first triggered cause. -/
def settle (w : Bool) (pt ht : Dur) (h : SignalTimes) : Settle :=
  match earliest (settleCands w pt ht h) with
  | none => .stillPending
  | some b => b.2

theorem earliest_mem : ∀ (l : List (Nat × Settle)) (b : Nat × Settle),
    earliest l = some b → b ∈ l := by
  intro l
  induction l with
  | nil =>
      intro b hb
      simp [earliest] at hb
  | cons c rest ih =>
      intro b hb
      cases he : earliest rest with
      | none =>
          simp only [earliest, he, Option.some.injEq] at hb
          subst hb
          exact List.mem_cons_self c rest
      | some d =>
          by_cases hd : d.1 < c.1
          · simp only [earliest, he, if_pos hd, Option.some.injEq] at hb
            subst hb
            exact List.mem_cons_of_mem c (ih d he)
          · simp only [earliest, he, if_neg hd, Option.some.injEq] at hb
            subst hb
            exact List.mem_cons_self c rest

theorem earliest_of_min : ∀ (l : List (Nat × Settle)) (c : Nat × Settle),
    c ∈ l → (∀ b ∈ l, b = c ∨ c.1 < b.1) → earliest l = some c := by
  intro l
  induction l with
  | nil =>
      intro c hc _
      exact absurd hc (List.not_mem_nil c)
  | cons x rest ih =>
      intro c hc hmin
      by_cases hxc : x = c
      · subst hxc
        simp only [earliest]
        cases he : earliest rest with
        | none => rfl
        | some d =>
            rcases hmin d (List.mem_cons_of_mem x (earliest_mem rest d he)) with h1 | h1
            · subst h1
              simp
            · have hnd : ¬d.1 < x.1 := by omega
              simp [hnd]
      · have hcrest : c ∈ rest := by
          rcases List.mem_cons.mp hc with h1 | h1
          · exact absurd h1.symm hxc
          · exact h1
        have he := ih c hcrest (fun b hb => hmin b (List.mem_cons_of_mem x hb))
        rcases hmin x (List.mem_cons_self x rest) with h1 | h1
        · exact absurd h1 hxc
        · simp only [earliest]
          rw [he]
          simp [h1]

/-- The `onTimeout` callback (part_000 lines 117–119) acting on the pool state
paired with the emit handle's settlement cell: it rejects a not-yet-settled
handle with the `ETIMEDOUT` condition and touches nothing else — in
particular it removes nothing from the pool's data structures. -/
def onTimeoutFire : EventPool × Option ErrKind → EventPool × Option ErrKind
  | (p, some e) => (p, some e)
  | (p, none) => (p, some .timeout)

/-! ## C4 — what the emit handle waits for -/

/-- C4: with the default options' unbounded timeouts and no `failed` signal,
the default-mode handle resolves exactly when (and only when) `pulled` is
signaled, while the `emitAndWait` handle resolves exactly when `handled` is
signaled — in particular a record that is pulled but never marked handled
leaves the `emitAndWait` handle pending indefinitely when `handlingTimeout`
is unbounded; a `failed` signal occurring before any other cause rejects the
handle, and an armed pending-timeout firing with no signals at all rejects it
with the Timeout condition. -/
theorem C4_handle_resolution :
    (∀ (ht : Dur) (h : SignalTimes), h.failed = none →
      settle false .inf ht h =
        (match h.pulled with
         | some tp => .resolvedAt tp
         | none => .stillPending)) ∧
    (∀ h : SignalTimes, h.failed = none →
      settle true .inf .inf h =
        (match h.handled with
         | some th => .resolvedAt th
         | none => .stillPending)) ∧
    (∀ tp : Nat,
      settle true .inf .inf { pulled := some tp, handled := none, failed := none } =
        .stillPending) ∧
    (∀ (w : Bool) (pt ht : Dur) (h : SignalTimes) (tf : Nat),
      h.failed = some tf →
      (∀ t, resolvingSignalTime w h = some t → tf < t) →
      (∀ t, pendingFireTime pt h = some t → tf < t) →
      (∀ t, handlingFireTime w ht h = some t → tf < t) →
      settle w pt ht h = .failedAt tf) ∧
    (∀ (w : Bool) (ht : Dur) (d : Nat), 0 < d →
      settle w (.fin d) ht { pulled := none, handled := none, failed := none } =
        .timeoutAt d .pendingT) := by
  refine ⟨?_, ?_, ?_, ?_, ?_⟩
  · intro ht h hf
    cases hp : h.pulled <;>
      simp [settle, settleCands, earliest, resolvingSignalTime, pendingFireTime,
        handlingFireTime, hp, hf]
  · intro h hf
    cases hh : h.handled <;>
      simp [settle, settleCands, earliest, resolvingSignalTime, pendingFireTime,
        handlingFireTime, hh, hf]
  · intro tp
    simp [settle, settleCands, earliest, resolvingSignalTime, pendingFireTime,
      handlingFireTime]
  · intro w pt ht h tf hf hres hpend hhand
    have hmem : (tf, Settle.failedAt tf) ∈ settleCands w pt ht h := by
      simp [settleCands, hf]
    have hmin : ∀ b ∈ settleCands w pt ht h,
        b = (tf, Settle.failedAt tf) ∨ tf < b.1 := by
      intro b hb
      simp only [settleCands, List.mem_append] at hb
      rcases hb with ((hb | hb) | hb) | hb
      · cases hro : resolvingSignalTime w h with
        | none => rw [hro] at hb; simp at hb
        | some t =>
            rw [hro] at hb
            simp at hb
            subst hb
            exact Or.inr (hres t hro)
      · rw [hf] at hb
        simp at hb
        subst hb
        exact Or.inl rfl
      · cases hpo : pendingFireTime pt h with
        | none => rw [hpo] at hb; simp at hb
        | some t =>
            rw [hpo] at hb
            simp at hb
            subst hb
            exact Or.inr (hpend t hpo)
      · cases hho : handlingFireTime w ht h with
        | none => rw [hho] at hb; simp at hb
        | some t =>
            rw [hho] at hb
            simp at hb
            subst hb
            exact Or.inr (hhand t hho)
    rw [settle, earliest_of_min (settleCands w pt ht h) (tf, .failedAt tf) hmem hmin]
  · intro w ht d hd
    cases w <;>
      simp [settle, settleCands, earliest, resolvingSignalTime, pendingFireTime,
        handlingFireTime, hd]

/-- Witness for `C4_handle_resolution` at concrete signal histories. -/
theorem C4_handle_resolution_witness :
    settle false .inf .inf { pulled := some 5, handled := none, failed := none } =
      .resolvedAt 5 ∧
    settle true .inf .inf { pulled := some 3, handled := some 7, failed := none } =
      .resolvedAt 7 ∧
    settle true .inf .inf { pulled := some 3, handled := none, failed := none } =
      .stillPending ∧
    settle false .inf .inf { pulled := some 9, handled := none, failed := some 4 } =
      .failedAt 4 ∧
    settle false (.fin 10) .inf { pulled := none, handled := none, failed := none } =
      .timeoutAt 10 .pendingT := by
  have h := C4_handle_resolution
  refine ⟨?_, ?_, h.2.2.1 3, ?_, h.2.2.2.2 false .inf 10 (by decide)⟩
  · have := h.1 .inf { pulled := some 5, handled := none, failed := none } rfl
    simpa using this
  · have := h.2.1 { pulled := some 3, handled := some 7, failed := none } rfl
    simpa using this
  · exact h.2.2.2.1 false .inf .inf
      { pulled := some 9, handled := none, failed := some 4 } 4 rfl
      (by intro t ht; simp [resolvingSignalTime] at ht; omega)
      (by intro t ht; simp [pendingFireTime] at ht)
      (by intro t ht; simp [handlingFireTime] at ht)

/-! ## C6 — emit-side timer lifecycle -/

/-- C6: the pending-timeout timer exists only while armed (finite positive
`pendingTimeout`) and is cancelled once `pulled` is signaled (it never fires
when `pulled` occurs at or before its fire time, and never when the timeout is
unbounded); it fires at `pendingTimeout` when the record is never pulled.  The
handling-timeout timer is armed only in wait-for-handled mode and only
starting at `pulled` (firing at `pulled + handlingTimeout`), and a `handled`
signal at or before that fire time resolves the handle instead.  Either timer
firing settles the emit handle as a Timeout rejection, and the timeout
callback leaves the pool's pending/active data structures untouched. -/
theorem C6_timer_lifecycle :
    (∀ (d : Nat) (h : SignalTimes) (tp : Nat), h.pulled = some tp → tp ≤ d →
      pendingFireTime (.fin d) h = none) ∧
    (∀ h : SignalTimes, pendingFireTime .inf h = none) ∧
    (∀ (d : Nat) (h : SignalTimes), 0 < d → h.pulled = none →
      pendingFireTime (.fin d) h = some d) ∧
    (∀ (ht : Dur) (h : SignalTimes), handlingFireTime false ht h = none) ∧
    (∀ (ht : Dur) (h : SignalTimes), h.pulled = none →
      handlingFireTime true ht h = none) ∧
    (∀ (e tp : Nat) (h : SignalTimes), 0 < e → h.pulled = some tp →
      handlingFireTime true (.fin e) h = some (tp + e)) ∧
    (∀ (w : Bool) (ht : Dur) (d : Nat), 0 < d →
      settle w (.fin d) ht { pulled := none, handled := none, failed := none } =
        .timeoutAt d .pendingT) ∧
    (∀ (e tp : Nat), 0 < e →
      settle true .inf (.fin e) { pulled := some tp, handled := none, failed := none } =
        .timeoutAt (tp + e) .handlingT) ∧
    (∀ (e tp th : Nat), 0 < e → th ≤ tp + e →
      settle true .inf (.fin e) { pulled := some tp, handled := some th, failed := none } =
        .resolvedAt th) ∧
    (∀ (p : EventPool) (c : Option ErrKind) (r : String),
      (onTimeoutFire (p, c)).1 = p ∧
      pendingOf (onTimeoutFire (p, c)).1 r = pendingOf p r ∧
      activeOf (onTimeoutFire (p, c)).1 r = activeOf p r) := by
  refine ⟨?_, ?_, ?_, ?_, ?_, ?_, ?_, ?_, ?_, ?_⟩
  · intro d h tp hp hle
    simp only [pendingFireTime, hp]
    split_ifs <;> first | rfl | omega
  · intro h
    simp [pendingFireTime]
  · intro d h hd hp
    simp [pendingFireTime, hp, hd]
  · intro ht h
    simp [handlingFireTime]
  · intro ht h hp
    cases ht <;> simp [handlingFireTime, hp]
  · intro e tp h he hp
    simp [handlingFireTime, hp, he]
  · intro w ht d hd
    cases w <;>
      simp [settle, settleCands, earliest, resolvingSignalTime, pendingFireTime,
        handlingFireTime, hd]
  · intro e tp he
    simp [settle, settleCands, earliest, resolvingSignalTime, pendingFireTime,
      handlingFireTime, he]
  · intro e tp th he hth
    have hnd : ¬tp + e < th := by omega
    simp [settle, settleCands, earliest, resolvingSignalTime, pendingFireTime,
      handlingFireTime, he, hnd]
  · intro p c r
    cases c <;> simp [onTimeoutFire]

/-- Witness for `C6_timer_lifecycle` at concrete timer configurations. -/
theorem C6_timer_lifecycle_witness :
    pendingFireTime (.fin 10) { pulled := some 4, handled := none, failed := none } =
      none ∧
    pendingFireTime (.fin 10) { pulled := none, handled := none, failed := none } =
      some 10 ∧
    handlingFireTime true (.fin 6) { pulled := some 4, handled := none, failed := none } =
      some 10 ∧
    settle true .inf (.fin 6) { pulled := some 4, handled := none, failed := none } =
      .timeoutAt 10 .handlingT ∧
    settle true .inf (.fin 6) { pulled := some 4, handled := some 9, failed := none } =
      .resolvedAt 9 ∧
    (onTimeoutFire (freshPool DefaultOptions, none)).1 = freshPool DefaultOptions := by
  have h := C6_timer_lifecycle
  refine ⟨h.1 10 _ 4 rfl (by omega), h.2.2.1 10 _ (by omega) rfl, ?_, ?_, ?_, ?_⟩
  · have := h.2.2.2.2.2.1 6 4 { pulled := some 4, handled := none, failed := none }
      (by omega) rfl
    simpa using this
  · have := h.2.2.2.2.2.2.2.1 6 4 (by omega)
    simpa using this
  · have := h.2.2.2.2.2.2.2.2.1 6 4 9 (by omega) (by omega)
    simpa using this
  · exact (h.2.2.2.2.2.2.2.2.2 (freshPool DefaultOptions) none "r").1

/-! ## C5 — pull timeout on an empty queue -/

/-- C5: a `pull( r, t )` finding `r`'s pending queue empty suspends (installs
the notifier without dequeuing anything), and if the timeout timer fires
before any `emit` for `r`, the call fails with the `timeout`-flagged error
while dequeuing nothing: every recipient's pending queue and active map are
exactly as before the failed call, and the notifier slot is cleared. -/
theorem C5_pull_timeout (p : EventPool) (r : String) (hr : ¬r = "")
    (hempty : pendingOf p r = []) :
    (pull p (.ofString r)).1 = .suspendedNow ∧
    (∀ r', pendingOf (pull p (.ofString r)).2 r' = pendingOf p r') ∧
    notifierOf (pull p (.ofString r)).2 r = true ∧
    (pullTimedOut (pull p (.ofString r)).2 r).1 = .timeout ∧
    (∀ r', pendingOf (pullTimedOut (pull p (.ofString r)).2 r).2 r' = pendingOf p r') ∧
    (∀ r', activeOf (pullTimedOut (pull p (.ofString r)).2 r).2 r' = activeOf p r') ∧
    notifierOf (pullTimedOut (pull p (.ofString r)).2 r).2 r = false := by
  have hstub : (stubOf p r).pending = [] := hempty
  have hpull : pull p (.ofString r) =
      (.suspendedNow, setStub (ensureStub p r) r { stubOf p r with waitingSoNotify := true }) := by
    simp only [pull, hr, if_false, stubOf_ensureStub, hstub, List.length_nil,
      Nat.lt_irrefl, if_false]
  rw [hpull]
  have hto : pullTimedOut
      (setStub (ensureStub p r) r { stubOf p r with waitingSoNotify := true }) r =
      (.timeout,
       setStub (setStub (ensureStub p r) r { stubOf p r with waitingSoNotify := true }) r
         { { stubOf p r with waitingSoNotify := true } with waitingSoNotify := false }) := by
    simp [pullTimedOut, stubOf_setStub_self]
  refine ⟨rfl, ?_, ?_, ?_, ?_, ?_, ?_⟩
  · intro r'
    by_cases hr' : r' = r
    · subst hr'
      simp [pendingOf, stubOf_setStub_self]
    · simp [pendingOf, stubOf_setStub_ne _ _ _ _ hr', stubOf_ensureStub]
  · simp [notifierOf, stubOf_setStub_self]
  · rw [hto]
  · intro r'
    rw [hto]
    by_cases hr' : r' = r
    · subst hr'
      simp [pendingOf, stubOf_setStub_self]
    · simp [pendingOf, stubOf_setStub_ne _ _ _ _ hr', stubOf_ensureStub]
  · intro r'
    rw [hto]
    by_cases hr' : r' = r
    · subst hr'
      simp [activeOf, stubOf_setStub_self]
    · simp [activeOf, stubOf_setStub_ne _ _ _ _ hr', stubOf_ensureStub]
  · rw [hto]
    simp [notifierOf, stubOf_setStub_self]

/-- Witness for `C5_pull_timeout` on a fresh pool. -/
theorem C5_pull_timeout_witness :
    (pull (freshPool DefaultOptions) (.ofString "x")).1 = .suspendedNow ∧
    (pullTimedOut (pull (freshPool DefaultOptions) (.ofString "x")).2 "x").1 = .timeout ∧
    pendingOf (pullTimedOut (pull (freshPool DefaultOptions) (.ofString "x")).2 "x").2 "x"
      = pendingOf (freshPool DefaultOptions) "x" := by
  have h := C5_pull_timeout (freshPool DefaultOptions) "x" (by decide) (by decide)
  exact ⟨h.1, h.2.2.2.1, h.2.2.2.2.1 "x"⟩

/-! ## C7 — the notifier/timeout race inside `pull` -/

inductive RaceWinner
  | notifiedWin
  | timedOutWin
deriving DecidableEq

/-- State of one suspended `pull`'s race (part_000 lines 197–225): whether the
notifier callback is still installed in `stub.waitingSoNotify`, whether the
timeout timer is still scheduled, and whether (and how) the
`Promise.race` has settled. -/
structure RaceState where
  notifierInstalled : Bool
  timerScheduled : Bool
  settled : Option RaceWinner
deriving DecidableEq

/-- Suspension point of `pull`: the notifier is installed (lines 198–203) and
the timeout timer scheduled (line 204); the race is unsettled. -/
def raceStart : RaceState :=
  { notifierInstalled := true, timerScheduled := true, settled := none }

/-- `emit` invoking `stub.waitingSoNotify`: the notifier clears itself (lines
199–202) and resolves the race, which is a no-op if the race already settled.
Nothing here clears the timer. -/
def notifyFire (s : RaceState) : RaceState :=
  if s.notifierInstalled then
    { s with
      notifierInstalled := false
      settled := match s.settled with
        | some x => some x
        | none => some .notifiedWin }
  else s

/-- The timeout timer firing (line 204): the timer is now spent; its `reject`
settles the race unless already settled, in which case nothing else happens
(rejecting a settled promise is a no-op and no handler runs).  Only when it
does settle the race does the `catch` handler (lines 221–225) run and clear
the notifier slot. -/
def timerFire (s : RaceState) : RaceState :=
  match s.settled with
  | some _ => { s with timerScheduled := false }
  | none =>
      { notifierInstalled := false
        timerScheduled := false
        settled := some .timedOutWin }

/-- C7 counterexample: the claim says that when the notifier wins the race the
timeout timer is cleared before the call proceeds; but `pull` contains no
`clearTimeout` at all, so after the notifier fires and wins the timer is still
scheduled. -/
theorem C7_counterexample :
    (notifyFire raceStart).settled = some .notifiedWin ∧
    (notifyFire raceStart).timerScheduled = true := by decide

/-- C7 (amended): the race is first-wins and settles exactly once, and on
either outcome the notifier is deactivated before the call proceeds or fails
(it clears itself when invoked, and the `catch` path clears it when the timer
wins); the timeout timer, however, is never cleared: after a notifier win it
stays scheduled, and its later firing is a no-op that changes nothing but the
timer's own scheduled flag — in particular it cannot settle the race again or
touch the notifier slot — and a phantom notify after a timer win likewise
changes nothing. -/
theorem C7_race_cleanup :
    (notifyFire raceStart).settled = some .notifiedWin ∧
    (timerFire raceStart).settled = some .timedOutWin ∧
    (notifyFire raceStart).notifierInstalled = false ∧
    (timerFire raceStart).notifierInstalled = false ∧
    (notifyFire raceStart).timerScheduled = true ∧
    timerFire (notifyFire raceStart) =
      { notifierInstalled := false, timerScheduled := false,
        settled := some .notifiedWin } ∧
    notifyFire (timerFire raceStart) = timerFire raceStart := by decide

/-! ## Operation sequences over the current-revision pool

To state reachable-state invariants (claims C8 and C9) we close the pool's
entry points under sequences of operations: emits, pulls, and consumer-side
`handled` signals. -/

inductive Op
  | emitOp (rid nm : String) (args : List JsVal) (patch : OptPatch)
  | pullOp (rid : String)
  | handledOp (rid : String) (i : Nat)
deriving DecidableEq

inductive Obs
  | emitObs (o : EmitOutcome)
  | pullObs (o : PullStartOutcome)
  | handledObs
deriving DecidableEq

def step (p : EventPool) : Op → EventPool × Obs
  | .emitOp rid nm args patch =>
      let r := emitWithOptions p (.ofString rid) nm args patch
      (r.2, .emitObs r.1)
  | .pullOp rid =>
      let r := pull p (.ofString rid)
      (r.2, .pullObs r.1)
  | .handledOp rid i => (signalHandled p rid i, .handledObs)

def runOps (p : EventPool) : List Op → EventPool
  | [] => p
  | op :: rest => runOps (step p op).1 rest

/-- The (recipient, record) pair recorded when a step is a successful emit. -/
def stepLog (p : EventPool) (op : Op) : List (String × Event) :=
  match op with
  | .emitOp rid nm args patch =>
      match (emitWithOptions p (.ofString rid) nm args patch).1 with
      | .ok ev _ => [(rid, ev)]
      | _ => []
  | _ => []

/-- All (recipient, record) pairs created by the successful emits of a run. -/
def emitLog (p : EventPool) : List Op → List (String × Event)
  | [] => []
  | op :: rest => stepLog p op ++ emitLog (step p op).1 rest

theorem setStub_nextId (p : EventPool) (r : String) (s : Stub) :
    (setStub p r s).nextId = p.nextId := rfl

theorem stubOf_override (p : EventPool) (r : String) (s : Stub) (n : Nat) (r' : String) :
    stubOf { setStub p r s with nextId := n } r' = stubOf (setStub p r s) r' := rfl

theorem emit_invalid_helper (p : EventPool) (rid : RecipientArg) (nm : String)
    (args : List JsVal) (patch : OptPatch) (hv : rid.valid = false) :
    emitWithOptions p rid nm args patch = (.rejectedInvalid, p) := by
  cases rid with
  | ofString s =>
      have hs : s = "" := by simpa [RecipientArg.valid] using hv
      subst hs
      simp [emitWithOptions]
  | undefinedId => simp [emitWithOptions]
  | nonString => simp [emitWithOptions]

theorem pull_invalid_helper (p : EventPool) (rid : RecipientArg) (hv : rid.valid = false) :
    pull p rid = (.rejectedInvalid, p) := by
  cases rid with
  | ofString s =>
      have hs : s = "" := by simpa [RecipientArg.valid] using hv
      subst hs
      simp [pull]
  | undefinedId => simp [pull]
  | nonString => simp [pull]

theorem emitWithOptions_capacity (p : EventPool) (s nm : String) (args : List JsVal)
    (patch : OptPatch) (hs : ¬s = "")
    (hcap : capacityReached (stubOf p s).pending.length p.options.maxPendingEvents = true) :
    emitWithOptions p (.ofString s) nm args patch = (.rejectedCapacity, ensureStub p s) := by
  simp only [emitWithOptions, hs, if_false, stubOf_ensureStub, hcap, if_true]

theorem pull_empty (p : EventPool) (s : String) (hs : ¬s = "")
    (hempty : pendingOf p s = []) :
    pull p (.ofString s) =
      (.suspendedNow, setStub (ensureStub p s) s
        { stubOf p s with waitingSoNotify := true }) := by
  have hstub : (stubOf p s).pending = [] := hempty
  simp only [pull, hs, if_false, stubOf_ensureStub, hstub, List.length_nil,
    Nat.lt_irrefl, if_false]

/-- Effects of one emit step: `active` maps are untouched, `pending` only
grows by the new record at its own recipient (which is then in the step log
with the fresh id), and the id counter only moves forward. -/
theorem step_effects_emit (p : EventPool) (rid nm : String) (args : List JsVal)
    (patch : OptPatch) :
    (∀ r e, e ∈ activeOf (step p (.emitOp rid nm args patch)).1 r → e ∈ activeOf p r) ∧
    (∀ r ev, ev ∈ pendingOf (step p (.emitOp rid nm args patch)).1 r →
      ev ∈ pendingOf p r ∨ (r, ev) ∈ stepLog p (.emitOp rid nm args patch)) ∧
    p.nextId ≤ (step p (.emitOp rid nm args patch)).1.nextId ∧
    (∀ e, e ∈ stepLog p (.emitOp rid nm args patch) →
      e.2.id = p.nextId ∧ (step p (.emitOp rid nm args patch)).1.nextId = p.nextId + 1) := by
  by_cases hs : rid = ""
  · have hinv : emitWithOptions p (.ofString rid) nm args patch = (.rejectedInvalid, p) := by
      subst hs
      simp [emitWithOptions]
    simp only [step, stepLog, hinv]
    exact ⟨fun r e h => h, fun r ev h => Or.inl h, Nat.le_refl _, by simp⟩
  · by_cases hcap : capacityReached (stubOf p rid).pending.length
        p.options.maxPendingEvents = true
    · have hcc := emitWithOptions_capacity p rid nm args patch hs hcap
      simp only [step, stepLog, hcc]
      refine ⟨?_, ?_, ?_, by simp⟩
      · intro r e h
        simpa [activeOf, stubOf_ensureStub] using h
      · intro r ev h
        exact Or.inl (by simpa [pendingOf, stubOf_ensureStub] using h)
      · simp [ensureStub_nextId]
    · have hcap' : capacityReached (stubOf p rid).pending.length
          p.options.maxPendingEvents = false := by
        simpa using hcap
      have hok := emitWithOptions_ok p rid nm args patch hs hcap'
      simp only [step, stepLog, hok]
      refine ⟨?_, ?_, Nat.le_succ p.nextId, ?_⟩
      · intro r e h
        by_cases hr : r = rid
        · subst hr
          simpa [activeOf, stubOf_override, stubOf_setStub_self] using h
        · simpa [activeOf, stubOf_override, stubOf_setStub_ne _ _ _ _ hr,
            stubOf_ensureStub] using h
      · intro r ev h
        by_cases hr : r = rid
        · subst hr
          have h' : ev ∈ (stubOf p r).pending ++
              [mkEvent p.nextId nm args (mergeOptions p.options patch)] := by
            simpa [pendingOf, stubOf_override, stubOf_setStub_self] using h
          rcases List.mem_append.mp h' with h1 | h1
          · exact Or.inl h1
          · simp at h1
            subst h1
            exact Or.inr (by simp)
        · exact Or.inl
            (by simpa [pendingOf, stubOf_override, stubOf_setStub_ne _ _ _ _ hr,
              stubOf_ensureStub] using h)
      · intro e he
        simp at he
        subst he
        simp [mkEvent]

/-- Effects of one pull step: `pending` only shrinks, the only `active`
insertion is the dequeued record keyed by its own id and only when its
`waitForHandlers` is set, and the id counter is untouched. -/
theorem step_effects_pull (p : EventPool) (rid : String) :
    (∀ r e, e ∈ activeOf (step p (.pullOp rid)).1 r →
      e ∈ activeOf p r ∨ (e.2.waitForHandlers = true ∧ e.1 = e.2.id)) ∧
    (∀ r ev, ev ∈ pendingOf (step p (.pullOp rid)).1 r → ev ∈ pendingOf p r) ∧
    (step p (.pullOp rid)).1.nextId = p.nextId := by
  by_cases hs : rid = ""
  · have hinv : pull p (.ofString rid) = (.rejectedInvalid, p) := by
      subst hs
      simp [pull]
    simp only [step, hinv]
    refine ⟨fun r e h => Or.inl h, fun r ev h => h, ?_⟩
    simp
  · cases hp : pendingOf p rid with
    | nil =>
        have hpl := pull_empty p rid hs hp
        simp only [step, hpl]
        refine ⟨?_, ?_, by simp [setStub_nextId, ensureStub_nextId]⟩
        · intro r e h
          by_cases hr : r = rid
          · subst hr
            exact Or.inl (by simpa [activeOf, stubOf_setStub_self] using h)
          · exact Or.inl
              (by simpa [activeOf, stubOf_setStub_ne _ _ _ _ hr, stubOf_ensureStub] using h)
        · intro r ev h
          by_cases hr : r = rid
          · subst hr
            simpa [pendingOf, stubOf_setStub_self] using h
          · simpa [pendingOf, stubOf_setStub_ne _ _ _ _ hr, stubOf_ensureStub] using h
    | cons ev rest =>
        have hpl := pull_immediate p rid ev rest hs hp
        simp only [step, hpl]
        refine ⟨?_, ?_, by simp [setStub_nextId, ensureStub_nextId]⟩
        · intro r e h
          by_cases hr : r = rid
          · subst hr
            have h' : e ∈ (if ev.waitForHandlers then
                (stubOf p r).active ++ [(ev.id, ev)] else (stubOf p r).active) := by
              simpa [activeOf, stubOf_setStub_self] using h
            by_cases hw : ev.waitForHandlers = true
            · rw [if_pos hw] at h'
              rcases List.mem_append.mp h' with h1 | h1
              · exact Or.inl h1
              · simp at h1
                subst h1
                exact Or.inr ⟨hw, rfl⟩
            · rw [if_neg hw] at h'
              exact Or.inl h'
          · exact Or.inl
              (by simpa [activeOf, stubOf_setStub_ne _ _ _ _ hr, stubOf_ensureStub] using h)
        · intro r ev' h
          by_cases hr : r = rid
          · subst hr
            have h' : ev' ∈ rest := by
              simpa [pendingOf, stubOf_setStub_self] using h
            rw [hp]
            exact List.mem_cons_of_mem ev h'
          · simpa [pendingOf, stubOf_setStub_ne _ _ _ _ hr, stubOf_ensureStub] using h

/-- Effects of one `handled` signal: `pending` and the id counter are
untouched and `active` only shrinks (the removed entries being those keyed by
the signaled id). -/
theorem step_effects_handled (p : EventPool) (rid : String) (i : Nat) :
    (∀ r e, e ∈ activeOf (step p (.handledOp rid i)).1 r → e ∈ activeOf p r) ∧
    (∀ r, pendingOf (step p (.handledOp rid i)).1 r = pendingOf p r) ∧
    (step p (.handledOp rid i)).1.nextId = p.nextId := by
  cases hl : lookupQ p.queues rid with
  | none =>
      have hsig : signalHandled p rid i = p := by
        simp [signalHandled, hl]
      refine ⟨?_, ?_, ?_⟩
      · intro r e h
        simpa [step, hsig] using h
      · intro r
        simp [step, hsig]
      · simp [step, hsig]
  | some stub =>
      have hsig : signalHandled p rid i =
          setStub p rid { stub with active := stub.active.filter (fun x => x.1 ≠ i) } := by
        simp [signalHandled, hl]
      have hstub : stubOf p rid = stub := by simp [stubOf, hl]
      refine ⟨?_, ?_, ?_⟩
      · intro r e h
        simp only [step, hsig] at h
        by_cases hr : r = rid
        · subst hr
          have h' : e ∈ stub.active.filter (fun x => x.1 ≠ i) := by
            simpa [activeOf, stubOf_setStub_self] using h
          have hm := List.mem_filter.mp h'
          simpa [activeOf, hstub] using hm.1
        · simpa [activeOf, stubOf_setStub_ne _ _ _ _ hr] using h
      · intro r
        simp only [step, hsig]
        by_cases hr : r = rid
        · subst hr
          simp [pendingOf, stubOf_setStub_self, hstub]
        · simp [pendingOf, stubOf_setStub_ne _ _ _ _ hr]
      · simp [step, hsig, setStub_nextId]

theorem step_active_sub (p : EventPool) (op : Op) (r : String) (e : Nat × Event)
    (h : e ∈ activeOf (step p op).1 r) :
    e ∈ activeOf p r ∨ (e.2.waitForHandlers = true ∧ e.1 = e.2.id) := by
  cases op with
  | emitOp rid nm args patch =>
      exact Or.inl ((step_effects_emit p rid nm args patch).1 r e h)
  | pullOp rid => exact (step_effects_pull p rid).1 r e h
  | handledOp rid i => exact Or.inl ((step_effects_handled p rid i).1 r e h)

theorem step_pending_sub (p : EventPool) (op : Op) (r : String) (ev : Event)
    (h : ev ∈ pendingOf (step p op).1 r) :
    ev ∈ pendingOf p r ∨ (r, ev) ∈ stepLog p op := by
  cases op with
  | emitOp rid nm args patch => exact (step_effects_emit p rid nm args patch).2.1 r ev h
  | pullOp rid => exact Or.inl ((step_effects_pull p rid).2.1 r ev h)
  | handledOp rid i =>
      refine Or.inl ?_
      rw [← (step_effects_handled p rid i).2.1 r]
      exact h

theorem step_nextId_mono (p : EventPool) (op : Op) : p.nextId ≤ (step p op).1.nextId := by
  cases op with
  | emitOp rid nm args patch => exact (step_effects_emit p rid nm args patch).2.2.1
  | pullOp rid => exact Nat.le_of_eq ((step_effects_pull p rid).2.2).symm
  | handledOp rid i => exact Nat.le_of_eq ((step_effects_handled p rid i).2.2).symm

theorem stepLog_bounds (p : EventPool) (op : Op) (e : String × Event)
    (h : e ∈ stepLog p op) :
    e.2.id = p.nextId ∧ (step p op).1.nextId = p.nextId + 1 := by
  cases op with
  | emitOp rid nm args patch => exact (step_effects_emit p rid nm args patch).2.2.2 e h
  | pullOp rid => simp [stepLog] at h
  | handledOp rid i => simp [stepLog] at h

theorem runOps_active_inv : ∀ (ops : List Op) (p : EventPool) (r : String) (e : Nat × Event),
    e ∈ activeOf (runOps p ops) r →
    e ∈ activeOf p r ∨ (e.2.waitForHandlers = true ∧ e.1 = e.2.id) := by
  intro ops
  induction ops with
  | nil => exact fun p r e h => Or.inl h
  | cons op rest ih =>
      intro p r e h
      simp only [runOps] at h
      rcases ih (step p op).1 r e h with h1 | h1
      · exact step_active_sub p op r e h1
      · exact Or.inr h1

theorem runOps_pending_inv : ∀ (ops : List Op) (p : EventPool) (r : String) (ev : Event),
    ev ∈ pendingOf (runOps p ops) r → ev ∈ pendingOf p r ∨ (r, ev) ∈ emitLog p ops := by
  intro ops
  induction ops with
  | nil => exact fun p r ev h => Or.inl h
  | cons op rest ih =>
      intro p r ev h
      simp only [runOps] at h
      rcases ih (step p op).1 r ev h with h1 | h1
      · rcases step_pending_sub p op r ev h1 with h2 | h2
        · exact Or.inl h2
        · refine Or.inr ?_
          simp only [emitLog]
          exact List.mem_append.mpr (Or.inl h2)
      · refine Or.inr ?_
        simp only [emitLog]
        exact List.mem_append.mpr (Or.inr h1)

theorem runOps_nextId_mono : ∀ (ops : List Op) (p : EventPool),
    p.nextId ≤ (runOps p ops).nextId := by
  intro ops
  induction ops with
  | nil => exact fun p => Nat.le_refl _
  | cons op rest ih =>
      intro p
      exact Nat.le_trans (step_nextId_mono p op) (ih (step p op).1)

theorem emitLog_lb : ∀ (ops : List Op) (p : EventPool) (e : String × Event),
    e ∈ emitLog p ops → p.nextId ≤ e.2.id := by
  intro ops
  induction ops with
  | nil =>
      intro p e h
      simp [emitLog] at h
  | cons op rest ih =>
      intro p e h
      simp only [emitLog] at h
      rcases List.mem_append.mp h with h1 | h1
      · exact Nat.le_of_eq (stepLog_bounds p op e h1).1.symm
      · exact Nat.le_trans (step_nextId_mono p op) (ih (step p op).1 e h1)

theorem stepLog_shape (p : EventPool) (op : Op) :
    stepLog p op = [] ∨ ∃ x, stepLog p op = [x] := by
  cases op with
  | emitOp rid nm args patch =>
      cases ho : (emitWithOptions p (.ofString rid) nm args patch).1 with
      | ok ev nfd =>
          right
          exact ⟨(rid, ev), by simp [stepLog, ho]⟩
      | rejectedInvalid =>
          left
          simp [stepLog, ho]
      | rejectedCapacity =>
          left
          simp [stepLog, ho]
  | pullOp rid =>
      left
      simp [stepLog]
  | handledOp rid i =>
      left
      simp [stepLog]

theorem emitLog_pairwise : ∀ (ops : List Op) (p : EventPool),
    List.Pairwise (fun a b : String × Event => a.2.id < b.2.id) (emitLog p ops) := by
  intro ops
  induction ops with
  | nil =>
      intro p
      simp [emitLog]
  | cons op rest ih =>
      intro p
      simp only [emitLog]
      refine List.pairwise_append.mpr ⟨?_, ih (step p op).1, ?_⟩
      · rcases stepLog_shape p op with h1 | ⟨x, h1⟩ <;> simp [h1]
      · intro a ha b hb
        have h1 := stepLog_bounds p op a ha
        have h2 := emitLog_lb rest (step p op).1 b hb
        omega

theorem activeOf_freshPool (o : Options) (r : String) : activeOf (freshPool o) r = [] := by
  simp [activeOf, stubOf, freshPool, lookupQ, emptyStub]

theorem pendingOf_freshPool (o : Options) (r : String) : pendingOf (freshPool o) r = [] := by
  simp [pendingOf, stubOf, freshPool, lookupQ, emptyStub]

theorem lookupQ_ensureStub_ne (p : EventPool) (r r' : String) (h : r' ≠ r) :
    lookupQ (ensureStub p r).queues r' = lookupQ p.queues r' := by
  unfold ensureStub
  cases hl : lookupQ p.queues r with
  | some s => rfl
  | none => simp [setStub, lookupQ_setQ_ne _ _ _ _ h]

/-! ## C8 — membership discipline of the `active` map -/

/-- C8: no emit path ever touches any `active` map; an immediate pull inserts
the dequeued record into its recipient's `active` keyed by the record's id
exactly when the record's `waitForHandlers` is set (and leaves `active`
unchanged otherwise); the one-shot `handled` listener removes exactly the
entries keyed by the signaled id, each removed-from list entry having been
present before; in every state reachable from a fresh pool each `active`
entry has `waitForHandlers` set and is keyed by its own record's id; and the
record's `waitForHandlers` surface mirrors its effective options. -/
theorem C8_active_membership :
    (∀ (p : EventPool) (rid : RecipientArg) (nm : String) (args : List JsVal)
        (patch : OptPatch) (r : String),
      activeOf (emitWithOptions p rid nm args patch).2 r = activeOf p r) ∧
    (∀ (p : EventPool) (s : String) (ev : Event) (rest : List Event),
      ¬s = "" → pendingOf p s = ev :: rest →
      activeOf (pull p (.ofString s)).2 s =
        (if ev.waitForHandlers then activeOf p s ++ [(ev.id, ev)] else activeOf p s)) ∧
    (∀ (p : EventPool) (s : String) (i : Nat) (e : Nat × Event),
      e ∈ activeOf (signalHandled p s i) s → ¬e.1 = i ∧ e ∈ activeOf p s) ∧
    (∀ (opts : Options) (ops : List Op) (r : String) (e : Nat × Event),
      e ∈ activeOf (runOps (freshPool opts) ops) r →
      e.2.waitForHandlers = true ∧ e.1 = e.2.id) ∧
    (∀ (i : Nat) (nm : String) (args : List JsVal) (o : Options),
      (mkEvent i nm args o).waitForHandlers = o.waitForHandlers) := by
  refine ⟨?_, ?_, ?_, ?_, ?_⟩
  · intro p rid nm args patch r
    cases rid with
    | ofString s =>
        by_cases hs : s = ""
        · rw [emit_invalid_helper p _ nm args patch (by simp [RecipientArg.valid, hs])]
        · by_cases hcap : capacityReached (stubOf p s).pending.length
              p.options.maxPendingEvents = true
          · rw [emitWithOptions_capacity p s nm args patch hs hcap]
            simp [activeOf, stubOf_ensureStub]
          · have hcap' : capacityReached (stubOf p s).pending.length
                p.options.maxPendingEvents = false := by simpa using hcap
            rw [emitWithOptions_ok p s nm args patch hs hcap']
            by_cases hr : r = s
            · subst hr
              simp [activeOf, stubOf_override, stubOf_setStub_self]
            · simp [activeOf, stubOf_override, stubOf_setStub_ne _ _ _ _ hr,
                stubOf_ensureStub]
    | undefinedId => rw [emit_invalid_helper p .undefinedId nm args patch (by decide)]
    | nonString => rw [emit_invalid_helper p .nonString nm args patch (by decide)]
  · intro p s ev rest hs hp
    rw [pull_immediate p s ev rest hs hp]
    simp [activeOf, stubOf_setStub_self]
  · intro p s i e h
    simp only [signalHandled] at h
    cases hl : lookupQ p.queues s with
    | none =>
        rw [hl] at h
        exact ⟨by
          have hact : activeOf p s = [] := by simp [activeOf, stubOf, hl, emptyStub]
          rw [hact] at h
          simp at h, h⟩
    | some stub =>
        rw [hl] at h
        have h' : e ∈ stub.active.filter (fun x => decide (x.1 ≠ i)) := by
          simpa [activeOf, stubOf_setStub_self] using h
        have hm := List.mem_filter.mp h'
        refine ⟨by simpa using hm.2, ?_⟩
        simpa [activeOf, stubOf, hl] using hm.1
  · intro opts ops r e h
    rcases runOps_active_inv ops (freshPool opts) r e h with h1 | h1
    · rw [activeOf_freshPool] at h1
      simp at h1
    · exact h1
  · intro i nm args o
    rfl

/-- Witness for `C8_active_membership`: an `emitAndWait`-style emit followed
by a pull places the record in `active` keyed by its id, and a plain emit
leaves `active` empty. -/
theorem C8_active_membership_witness :
    activeOf (pull (emitWithOptions (freshPool DefaultOptions) (.ofString "a") "x" []
        { waitForHandlers := some true }).2 (.ofString "a")).2 "a" =
      [(0, mkEvent 0 "x" [] { DefaultOptions with waitForHandlers := true })] ∧
    activeOf (emitWithOptions (freshPool DefaultOptions) (.ofString "a") "x" [] {}).2 "a" =
      activeOf (freshPool DefaultOptions) "a" := by
  have h := C8_active_membership
  constructor
  · have h2 := h.2.1 (emitWithOptions (freshPool DefaultOptions) (.ofString "a") "x" []
        { waitForHandlers := some true }).2 "a"
        (mkEvent 0 "x" [] { DefaultOptions with waitForHandlers := true }) []
        (by decide) (by decide)
    rw [h2]
    decide
  · exact h.1 (freshPool DefaultOptions) (.ofString "a") "x" [] {} "a"

/-! ## C9 — isolation across recipients -/

/-- C9: an emit targeting `r'` leaves the whole queue stub of every other
recipient `r` untouched (its entry in the `queues` mapping — pending queue,
active map and notifier slot — is unchanged, so in particular a pull
suspended on `r` is not woken), and a record created by an emit to `r'` is
never returned by a pull for a different recipient `r` in any state reachable
from a fresh pool. -/
theorem C9_recipient_isolation :
    (∀ (p : EventPool) (r r' nm : String) (args : List JsVal) (patch : OptPatch),
      ¬r = r' →
      lookupQ (emitWithOptions p (.ofString r') nm args patch).2.queues r =
        lookupQ p.queues r) ∧
    (∀ (p : EventPool) (r r' nm : String) (args : List JsVal) (patch : OptPatch),
      ¬r = r' →
      pendingOf (emitWithOptions p (.ofString r') nm args patch).2 r = pendingOf p r ∧
      activeOf (emitWithOptions p (.ofString r') nm args patch).2 r = activeOf p r ∧
      notifierOf (emitWithOptions p (.ofString r') nm args patch).2 r = notifierOf p r) ∧
    (∀ (opts : Options) (ops : List Op) (r r' : String) (ev : Event),
      ¬r = r' → (r', ev) ∈ emitLog (freshPool opts) ops →
      (pull (runOps (freshPool opts) ops) (.ofString r)).1 ≠ .immediate (some ev)) := by
  have key : ∀ (p : EventPool) (r r' nm : String) (args : List JsVal) (patch : OptPatch),
      ¬r = r' →
      lookupQ (emitWithOptions p (.ofString r') nm args patch).2.queues r =
        lookupQ p.queues r := by
    intro p r r' nm args patch hne
    by_cases hs : r' = ""
    · rw [emit_invalid_helper p _ nm args patch (by simp [RecipientArg.valid, hs])]
    · by_cases hcap : capacityReached (stubOf p r').pending.length
          p.options.maxPendingEvents = true
      · rw [emitWithOptions_capacity p r' nm args patch hs hcap]
        exact lookupQ_ensureStub_ne p r' r hne
      · have hcap' : capacityReached (stubOf p r').pending.length
            p.options.maxPendingEvents = false := by simpa using hcap
        rw [emitWithOptions_ok p r' nm args patch hs hcap']
        exact Eq.trans (lookupQ_setQ_ne _ _ _ _ hne) (lookupQ_ensureStub_ne p r' r hne)
  refine ⟨key, ?_, ?_⟩
  · intro p r r' nm args patch hne
    have h1 := key p r r' nm args patch hne
    refine ⟨?_, ?_, ?_⟩ <;> simp [pendingOf, activeOf, notifierOf, stubOf, h1]
  · intro opts ops r r' ev hne hmem heq
    by_cases hr0 : r = ""
    · rw [pull_invalid_helper (runOps (freshPool opts) ops) _
        (by simp [RecipientArg.valid, hr0])] at heq
      simp at heq
    · cases hp : pendingOf (runOps (freshPool opts) ops) r with
      | nil =>
          rw [pull_empty (runOps (freshPool opts) ops) r hr0 hp] at heq
          simp at heq
      | cons ev0 rest =>
          rw [pull_immediate (runOps (freshPool opts) ops) r ev0 rest hr0 hp] at heq
          simp only [PullStartOutcome.immediate.injEq, Option.some.injEq] at heq
          subst heq
          have hin : ev0 ∈ pendingOf (runOps (freshPool opts) ops) r := by
            rw [hp]
            exact List.mem_cons_self ev0 rest
          rcases runOps_pending_inv ops (freshPool opts) r ev0 hin with h1 | h1
          · rw [pendingOf_freshPool] at h1
            simp at h1
          · have hpw := emitLog_pairwise ops (freshPool opts)
            have hpw' : List.Pairwise
                (fun a b : String × Event => a.2.id ≠ b.2.id)
                (emitLog (freshPool opts) ops) :=
              hpw.imp (fun hlt => Nat.ne_of_lt hlt)
            have hsym : Symmetric (fun a b : String × Event => a.2.id ≠ b.2.id) :=
              fun a b hab => Ne.symm hab
            have hneq : (r, ev0) ≠ (r', ev0) := by
              intro hx
              exact hne (congrArg Prod.fst hx)
            exact (hpw'.forall hsym h1 hmem hneq) rfl

/-- Witness for `C9_recipient_isolation`: after an emit to "b" on a fresh
pool, a pull for "a" does not return "b"'s record, and the emit left "a"'s
stub absent and unchanged. -/
theorem C9_recipient_isolation_witness :
    (pull (runOps (freshPool DefaultOptions) [.emitOp "b" "x" [] {}]) (.ofString "a")).1 ≠
      .immediate (some (mkEvent 0 "x" [] DefaultOptions)) ∧
    lookupQ (emitWithOptions (freshPool DefaultOptions) (.ofString "b") "x" [] {}).2.queues
      "a" = lookupQ (freshPool DefaultOptions).queues "a" := by
  have h := C9_recipient_isolation
  refine ⟨?_, h.1 (freshPool DefaultOptions) "a" "b" "x" [] {} (by decide)⟩
  exact h.2.2 DefaultOptions [.emitOp "b" "x" [] {}] "a" "b"
    (mkEvent 0 "x" [] DefaultOptions) (by decide) (by decide)

/-! ## C10 — observational equivalence of the two revisions in default mode -/

def toOldEvent (e : Event) : OldEvent :=
  { id := e.id, name := e.name, arguments := e.arguments }

def toOldStub (s : Stub) : OldStub :=
  { pending := s.pending.map toOldEvent
    active := s.active.map (fun x => (x.1, toOldEvent x.2))
    waitingSoNotify := s.waitingSoNotify }

/-- Forgetting the options-related data of a current-revision pool yields a
legacy pool over the same queues. -/
def projOld (p : EventPool) : OldEventPool :=
  { queues := p.queues.map (fun x => (x.1, toOldStub x.2)), nextId := p.nextId }

theorem mergeOptions_empty (o : Options) : mergeOptions o {} = o := rfl

theorem oldStubOf_setOldStub_self (q : OldEventPool) (r : String) (s : OldStub) :
    oldStubOf (setOldStub q r s) r = s := by
  simp [oldStubOf, setOldStub, lookupQ_setQ_self]

theorem oldStubOf_ensureOldStub (q : OldEventPool) (r r' : String) :
    oldStubOf (ensureOldStub q r) r' = oldStubOf q r' := by
  unfold ensureOldStub
  cases h : lookupQ q.queues r with
  | some s => rfl
  | none =>
      by_cases hr : r' = r
      · subst hr
        simp [oldStubOf, setOldStub, lookupQ_setQ_self, h]
      · simp [oldStubOf, setOldStub, lookupQ_setQ_ne _ _ _ _ hr]

theorem ensureOldStub_nextId (q : OldEventPool) (r : String) :
    (ensureOldStub q r).nextId = q.nextId := by
  unfold ensureOldStub
  cases lookupQ q.queues r <;> rfl

theorem oldEmit_ok (q : OldEventPool) (s nm : String) (args : List JsVal) (hs : ¬s = "") :
    oldEmit q (.ofString s) nm args =
      (.returned ({ id := q.nextId, name := nm, arguments := args },
         (oldStubOf q s).waitingSoNotify),
       { setOldStub (ensureOldStub q s) s
           { oldStubOf q s with
             pending := (oldStubOf q s).pending ++
               [{ id := q.nextId, name := nm, arguments := args }] } with
         nextId := q.nextId + 1 }) := by
  simp only [oldEmit, hs, if_false, oldStubOf_ensureOldStub, ensureOldStub_nextId]

theorem oldPull_immediate (q : OldEventPool) (s : String) (ev : OldEvent)
    (rest : List OldEvent) (w : Bool) (hs : ¬s = "")
    (hp : oldPendingOf q s = ev :: rest) :
    oldPull q (.ofString s) w =
      (.returned (.immediate (some ev)),
       setOldStub (ensureOldStub q s) s
         { pending := rest
           active := if w then (oldStubOf q s).active ++ [(ev.id, ev)]
             else (oldStubOf q s).active
           waitingSoNotify := false }) := by
  have hp' : (oldStubOf q s).pending = ev :: rest := hp
  simp only [oldPull, oldPullProceed, hs, if_false, oldStubOf_ensureOldStub, hp',
    List.length_cons, if_true]
  simp

theorem oldPull_empty (q : OldEventPool) (s : String) (w : Bool) (hs : ¬s = "")
    (hp : oldPendingOf q s = []) :
    oldPull q (.ofString s) w =
      (.returned .suspendedNow,
       setOldStub (ensureOldStub q s) s
         { oldStubOf q s with waitingSoNotify := true }) := by
  have hp' : (oldStubOf q s).pending = [] := hp
  simp only [oldPull, hs, if_false, oldStubOf_ensureOldStub, hp', List.length_nil,
    Nat.lt_irrefl, if_false]

theorem lookupQ_map_stub : ∀ (qs : List (String × Stub)) (r : String),
    lookupQ (qs.map (fun x => (x.1, toOldStub x.2))) r = (lookupQ qs r).map toOldStub := by
  intro qs r
  induction qs with
  | nil => simp [lookupQ]
  | cons hd tl ih =>
      obtain ⟨k, v⟩ := hd
      by_cases hk : k = r <;> simp [lookupQ, hk, ih]

theorem setQ_map_stub : ∀ (qs : List (String × Stub)) (r : String) (s : Stub),
    (setQ qs r s).map (fun x => (x.1, toOldStub x.2)) =
      setQ (qs.map (fun x => (x.1, toOldStub x.2))) r (toOldStub s) := by
  intro qs r s
  induction qs with
  | nil => simp [setQ]
  | cons hd tl ih =>
      obtain ⟨k, v⟩ := hd
      by_cases hk : k = r <;> simp [setQ, hk, ih]

theorem projOld_setStub (p : EventPool) (r : String) (s : Stub) :
    projOld (setStub p r s) = setOldStub (projOld p) r (toOldStub s) := by
  simp [projOld, setStub, setOldStub, setQ_map_stub]

theorem oldStubOf_projOld (p : EventPool) (r : String) :
    oldStubOf (projOld p) r = toOldStub (stubOf p r) := by
  simp only [oldStubOf, projOld, lookupQ_map_stub, stubOf]
  cases lookupQ p.queues r <;> simp [toOldStub, emptyOldStub, emptyStub]

theorem projOld_ensureStub (p : EventPool) (r : String) :
    projOld (ensureStub p r) = ensureOldStub (projOld p) r := by
  unfold ensureStub ensureOldStub
  cases hl : lookupQ p.queues r with
  | some s =>
      have h2 : lookupQ (projOld p).queues r = some (toOldStub s) := by
        simp [projOld, lookupQ_map_stub, hl]
      rw [h2]
  | none =>
      have h2 : lookupQ (projOld p).queues r = none := by
        simp [projOld, lookupQ_map_stub, hl]
      rw [h2, projOld_setStub]
      rfl

theorem projOld_override (p : EventPool) (r : String) (s : Stub) (n : Nat) :
    projOld { setStub p r s with nextId := n } =
      { setOldStub (projOld p) r (toOldStub s) with nextId := n } := by
  simp [projOld, setStub, setOldStub, setQ_map_stub]

theorem projOld_nextId (p : EventPool) : (projOld p).nextId = p.nextId := rfl

/-- Common shape of the operations both revisions support in default mode. -/
inductive DOp
  | demit (rid nm : String) (args : List JsVal)
  | dpull (rid : String)
deriving DecidableEq

/-- Observable outcome of one default-mode operation, identical across the
two revisions whenever they agree. -/
inductive DObs
  | emitted (id : Nat) (nm : String) (args : List JsVal)
  | emitFailed
  | invalidArg
  | delivered (id : Nat) (nm : String) (args : List JsVal)
  | suspendedObs
deriving DecidableEq

def validDOp : DOp → Bool
  | .demit rid _ _ => !(rid == "")
  | .dpull rid => !(rid == "")

def newStepD (p : EventPool) : DOp → EventPool × DObs
  | .demit rid nm args =>
      match emitWithOptions p (.ofString rid) nm args {} with
      | (.ok ev _, p') => (p', .emitted ev.id ev.name ev.arguments)
      | (.rejectedCapacity, p') => (p', .emitFailed)
      | (.rejectedInvalid, p') => (p', .invalidArg)
  | .dpull rid =>
      match pull p (.ofString rid) with
      | (.immediate (some ev), p') => (p', .delivered ev.id ev.name ev.arguments)
      | (.immediate none, p') => (p', .invalidArg)
      | (.suspendedNow, p') => (p', .suspendedObs)
      | (.rejectedInvalid, p') => (p', .invalidArg)

def runNewD (p : EventPool) : List DOp → EventPool × List DObs
  | [] => (p, [])
  | op :: rest =>
      let s := newStepD p op
      let t := runNewD s.1 rest
      (t.1, s.2 :: t.2)

def oldStepD (q : OldEventPool) : DOp → OldEventPool × DObs
  | .demit rid nm args =>
      match oldEmit q (.ofString rid) nm args with
      | (.returned x, q') => (q', .emitted x.1.id x.1.name x.1.arguments)
      | (.thrown _, q') => (q', .invalidArg)
  | .dpull rid =>
      match oldPull q (.ofString rid) false with
      | (.returned (.immediate (some ev)), q') => (q', .delivered ev.id ev.name ev.arguments)
      | (.returned (.immediate none), q') => (q', .invalidArg)
      | (.returned .suspendedNow, q') => (q', .suspendedObs)
      | (.thrown _, q') => (q', .invalidArg)

def runOldD (q : OldEventPool) : List DOp → OldEventPool × List DObs
  | [] => (q, [])
  | op :: rest =>
      let s := oldStepD q op
      let t := runOldD s.1 rest
      (t.1, s.2 :: t.2)

/-- `const resolvingEvent = event.options.waitForHandlers ? "handled" :
"pulled"` (part_000 line 107). -/
def resolvingEventName (o : Options) : String :=
  if o.waitForHandlers then "handled" else "pulled"

/-- `event.emit( "pulled" )` at dequeue (part_000 line 217). -/
def newPullSignal : String := "pulled"

/-- `event.once( "fetched", resolve )` (pool.js line 85). -/
def oldResolvingEventName : String := "fetched"

/-- `event.emit( "fetched" )` at dequeue (pool.js line 128). -/
def oldPullSignal : String := "fetched"

/-- Settlement of the legacy emit handle (pool.js lines 84–87): only the
`fetched` resolve listener and the `failed` reject listener, no timers. -/
def settleOld (fetched failedSig : Option Nat) : Settle :=
  match earliest
      ((match fetched with
        | some t => [(t, .resolvedAt t)]
        | none => []) ++
       (match failedSig with
        | some t => [(t, .failedAt t)]
        | none => [])) with
  | none => .stillPending
  | some b => b.2

/-- One default-mode step preserves the correspondence between the two
revisions, provided the step neither hits capacity nor suspends, no notifier
is installed, and all pending records are default-mode records. -/
theorem stepD_equiv (p : EventPool) (op : DOp)
    (hopt : p.options = DefaultOptions)
    (hnot : ∀ r, notifierOf p r = false)
    (hW : ∀ r ev, ev ∈ pendingOf p r → ev.waitForHandlers = false)
    (hv : validDOp op = true)
    (hcap : (newStepD p op).2 ≠ .emitFailed)
    (hsusp : (newStepD p op).2 ≠ .suspendedObs) :
    oldStepD (projOld p) op = (projOld (newStepD p op).1, (newStepD p op).2) ∧
    (newStepD p op).1.options = DefaultOptions ∧
    (∀ r, notifierOf (newStepD p op).1 r = false) ∧
    (∀ r ev, ev ∈ pendingOf (newStepD p op).1 r → ev.waitForHandlers = false) := by
  cases op with
  | demit rid nm args =>
      have hrid : ¬rid = "" := by
        simpa [validDOp] using hv
      by_cases hcapB : capacityReached (stubOf p rid).pending.length
          p.options.maxPendingEvents = true
      · exact absurd (by
          simp [newStepD, emitWithOptions_capacity p rid nm args {} hrid hcapB]) hcap
      · have hcap' : capacityReached (stubOf p rid).pending.length
            p.options.maxPendingEvents = false := by simpa using hcapB
        have hnew := emitWithOptions_ok p rid nm args {} hrid hcap'
        have hold := oldEmit_ok (projOld p) rid nm args hrid
        have hnot' : (stubOf p rid).waitingSoNotify = false := hnot rid
        have hstep : newStepD p (.demit rid nm args) =
            ({ setStub (ensureStub p rid) rid
                 { stubOf p rid with
                   pending := (stubOf p rid).pending ++
                     [mkEvent p.nextId nm args (mergeOptions p.options {})]
                   waitingSoNotify := false } with
               nextId := p.nextId + 1 },
             .emitted p.nextId nm args) := by
          simp [newStepD, hnew, mkEvent]
        refine ⟨?_, ?_, ?_, ?_⟩
        · rw [hstep]
          simp only [oldStepD, hold]
          rw [projOld_override, projOld_ensureStub]
          simp [oldStubOf_projOld, toOldStub, toOldEvent, mkEvent,
            mergeOptions_empty, hnot', List.map_append, projOld_nextId]
        · rw [hstep]
          simp [setStub, ensureStub_options, hopt]
        · intro r
          rw [hstep]
          by_cases hr : r = rid
          · subst hr
            simp [notifierOf, stubOf_override, stubOf_setStub_self]
          · simp [notifierOf, stubOf_override, stubOf_setStub_ne _ _ _ _ hr,
              stubOf_ensureStub]
            exact hnot r
        · intro r ev h
          rw [hstep] at h
          by_cases hr : r = rid
          · subst hr
            have h' : ev ∈ (stubOf p r).pending ++
                [mkEvent p.nextId nm args (mergeOptions p.options {})] := by
              simpa [pendingOf, stubOf_override, stubOf_setStub_self] using h
            rcases List.mem_append.mp h' with h1 | h1
            · exact hW r ev h1
            · simp at h1
              subst h1
              simp [mkEvent, mergeOptions_empty, hopt, DefaultOptions]
          · have h' : ev ∈ pendingOf p r := by
              simpa [pendingOf, stubOf_override, stubOf_setStub_ne _ _ _ _ hr,
                stubOf_ensureStub] using h
            exact hW r ev h'
  | dpull rid =>
      have hrid : ¬rid = "" := by
        simpa [validDOp] using hv
      cases hp : pendingOf p rid with
      | nil =>
          exact absurd (by simp [newStepD, pull_empty p rid hrid hp]) hsusp
      | cons ev rest =>
          have hnew := pull_immediate p rid ev rest hrid hp
          have hwev : ev.waitForHandlers = false := by
            apply hW rid ev
            rw [hp]
            exact List.mem_cons_self ev rest
          have holdp : oldPendingOf (projOld p) rid = toOldEvent ev :: rest.map toOldEvent := by
            have : (stubOf p rid).pending = ev :: rest := hp
            simp [oldPendingOf, oldStubOf_projOld, toOldStub, this]
          have hold := oldPull_immediate (projOld p) rid (toOldEvent ev)
            (rest.map toOldEvent) false hrid holdp
          have hstep : newStepD p (.dpull rid) =
              (setStub (ensureStub p rid) rid
                 { pending := rest
                   active := (stubOf p rid).active
                   waitingSoNotify := false },
               .delivered ev.id ev.name ev.arguments) := by
            simp [newStepD, hnew, hwev]
          refine ⟨?_, ?_, ?_, ?_⟩
          · rw [hstep]
            simp only [oldStepD, hold]
            rw [projOld_setStub, projOld_ensureStub]
            simp [oldStubOf_projOld, toOldStub, toOldEvent]
          · rw [hstep]
            simp [setStub, ensureStub_options, hopt]
          · intro r
            rw [hstep]
            by_cases hr : r = rid
            · subst hr
              simp [notifierOf, stubOf_setStub_self]
            · simp [notifierOf, stubOf_setStub_ne _ _ _ _ hr, stubOf_ensureStub]
              exact hnot r
          · intro r ev' h
            rw [hstep] at h
            by_cases hr : r = rid
            · subst hr
              have h' : ev' ∈ rest := by
                simpa [pendingOf, stubOf_setStub_self] using h
              apply hW r ev'
              rw [hp]
              exact List.mem_cons_of_mem ev h'
            · have h' : ev' ∈ pendingOf p r := by
                simpa [pendingOf, stubOf_setStub_ne _ _ _ _ hr, stubOf_ensureStub] using h
              exact hW r ev' h'

theorem runD_equiv : ∀ (ops : List DOp) (p : EventPool),
    p.options = DefaultOptions →
    (∀ r, notifierOf p r = false) →
    (∀ r ev, ev ∈ pendingOf p r → ev.waitForHandlers = false) →
    (∀ op ∈ ops, validDOp op = true) →
    DObs.emitFailed ∉ (runNewD p ops).2 →
    DObs.suspendedObs ∉ (runNewD p ops).2 →
    runOldD (projOld p) ops = (projOld (runNewD p ops).1, (runNewD p ops).2) := by
  intro ops
  induction ops with
  | nil =>
      intro p _ _ _ _ _ _
      simp [runNewD, runOldD]
  | cons op rest ih =>
      intro p hopt hnot hW hv hcap hsusp
      have hlist : (runNewD p (op :: rest)).2 =
          (newStepD p op).2 :: (runNewD (newStepD p op).1 rest).2 := rfl
      have hcap0 : (newStepD p op).2 ≠ .emitFailed := by
        intro hx
        exact hcap (by rw [hlist, hx]; exact List.mem_cons_self _ _)
      have hsusp0 : (newStepD p op).2 ≠ .suspendedObs := by
        intro hx
        exact hsusp (by rw [hlist, hx]; exact List.mem_cons_self _ _)
      have hstep := stepD_equiv p op hopt hnot hW (hv op (List.mem_cons_self op rest))
        hcap0 hsusp0
      have hcapT : DObs.emitFailed ∉ (runNewD (newStepD p op).1 rest).2 := by
        intro hx
        exact hcap (by rw [hlist]; exact List.mem_cons_of_mem _ hx)
      have hsuspT : DObs.suspendedObs ∉ (runNewD (newStepD p op).1 rest).2 := by
        intro hx
        exact hsusp (by rw [hlist]; exact List.mem_cons_of_mem _ hx)
      have iht := ih (newStepD p op).1 hstep.2.1 hstep.2.2.1 hstep.2.2.2
        (fun o ho => hv o (List.mem_cons_of_mem op ho)) hcapT hsuspT
      show (let s := oldStepD (projOld p) op
            let t := runOldD s.1 rest
            (t.1, s.2 :: t.2)) =
        (projOld (runNewD p (op :: rest)).1, (runNewD p (op :: rest)).2)
      rw [hstep.1]
      simp only [iht]
      rfl

/-- C10: from fresh pools, for any default-mode operation sequence over valid
recipient ids in which the current revision neither rejects for capacity nor
suspends a pull, the two revisions are observationally equivalent: the legacy
run produces the identical observation trace (same created-record identities,
names, arguments, and the same dequeued head records in the same order) and a
final state that is exactly the projection of the current revision's final
state (same per-recipient FIFO contents).  Moreover, in both revisions the
emitter's default-mode handle resolves exactly on the signal that `pull`
raises at dequeue time — named "fetched" in the legacy revision and "pulled"
in the current one. -/
theorem C10_revisions_equivalent :
    (∀ ops : List DOp,
      (∀ op ∈ ops, validDOp op = true) →
      DObs.emitFailed ∉ (runNewD (freshPool DefaultOptions) ops).2 →
      DObs.suspendedObs ∉ (runNewD (freshPool DefaultOptions) ops).2 →
      runOldD freshOldPool ops =
        (projOld (runNewD (freshPool DefaultOptions) ops).1,
         (runNewD (freshPool DefaultOptions) ops).2)) ∧
    resolvingEventName (mergeOptions DefaultOptions {}) = newPullSignal ∧
    oldResolvingEventName = oldPullSignal ∧
    (∀ t : Nat,
      settleOld (some t) none = .resolvedAt t ∧
      settle false .inf .inf { pulled := some t, handled := none, failed := none } =
        .resolvedAt t) := by
  refine ⟨?_, by decide, rfl, ?_⟩
  · intro ops hv hcap hsusp
    have hfresh : projOld (freshPool DefaultOptions) = freshOldPool := rfl
    have h := runD_equiv ops (freshPool DefaultOptions) rfl
      (fun r => by simp [notifierOf, stubOf, freshPool, lookupQ, emptyStub])
      (fun r ev h => by
        rw [pendingOf_freshPool] at h
        simp at h)
      hv hcap hsusp
    rw [← hfresh]
    exact h
  · intro t
    constructor
    · simp [settleOld, earliest]
    · simp [settle, settleCands, earliest, resolvingSignalTime, pendingFireTime,
        handlingFireTime]

/-- Witness for `C10_revisions_equivalent`: one emit and one pull on
recipient "a" produce the same trace and corresponding final states in both
revisions. -/
theorem C10_revisions_equivalent_witness :
    runOldD freshOldPool [.demit "a" "ping" [], .dpull "a"] =
      (projOld (runNewD (freshPool DefaultOptions)
        [.demit "a" "ping" [], .dpull "a"]).1,
       (runNewD (freshPool DefaultOptions) [.demit "a" "ping" [], .dpull "a"]).2) ∧
    (runNewD (freshPool DefaultOptions) [.demit "a" "ping" [], .dpull "a"]).2 =
      [.emitted 0 "ping" [], .delivered 0 "ping" []] := by
  have h := C10_revisions_equivalent
  refine ⟨h.1 [.demit "a" "ping" [], .dpull "a"] (by decide) (by decide) (by decide), ?_⟩
  decide
